import Mathlib

set_option maxHeartbeats 1000000

namespace Taskbook

/-!
Verification development for the taskbook repository: a shallow embedding of
the item model, board-name handling, JSON (de)serialization, the client-side
encryption envelope, the local storage backend, the client task service, and
the server-side registration and item-replacement handlers, together with
theorems settling the specification claims.
-/

/-! ## Character and string primitives

Models of the Rust standard library string operations the program uses.
All board names, tags, usernames and similar data handled by the claims lie
in the ASCII and Latin-1 ranges; the models below are exact on those ranges
(and are only applied there). -/

/-- Model of Rust `char::to_ascii_lowercase`: maps A-Z to a-z, leaves every
other character unchanged. -/
def asciiLower (c : Char) : Char :=
  if 'A' ≤ c ∧ c ≤ 'Z' then Char.ofNat (c.toNat + 32) else c

/-- Pointwise ASCII-case-insensitive comparison of character lists. -/
def eqIgnoreAsciiCaseList : List Char → List Char → Bool
  | [], [] => true
  | [], _ :: _ => false
  | _ :: _, [] => false
  | a :: as, b :: bs =>
      asciiLower a = asciiLower b && eqIgnoreAsciiCaseList as bs

/-- Model of Rust `str::eq_ignore_ascii_case`. Outside A-Z and a-z the bytes
must match exactly, which for UTF-8 text coincides with exact character
equality, so the character-wise comparison is faithful. -/
def eqIgnoreAsciiCase (a b : String) : Bool :=
  eqIgnoreAsciiCaseList a.data b.data

/-- Model of Rust `char::is_whitespace` (the Unicode White_Space property),
exact on codepoints below U+0100. -/
def rustIsWhitespace (c : Char) : Bool :=
  c = ' ' || c = '\t' || c = '\n' || c.toNat = 0x0B || c.toNat = 0x0C ||
    c = '\r' || c.toNat = 0x85 || c.toNat = 0xA0

/-- Drop trailing characters satisfying `p`. -/
def dropTrailing (p : Char → Bool) (l : List Char) : List Char :=
  (l.reverse.dropWhile p).reverse

/-- Model of Rust `str::trim`: strip leading and trailing whitespace. -/
def rustTrim (s : String) : String :=
  ⟨dropTrailing rustIsWhitespace (s.data.dropWhile rustIsWhitespace)⟩

/-- Model of Rust `str.starts_with('@')`. -/
def startsWithAt (w : String) : Bool :=
  match w.data with
  | '@' :: _ => true
  | _ => false

/-- Model of Rust `str.trim_start_matches('@')`: strip every leading `@`. -/
def trimStartMatchesAt (s : String) : String :=
  ⟨s.data.dropWhile (fun c => c = '@')⟩

/-- UTF-8 byte size of a single character, as Rust `char::len_utf8`. -/
def charUtf8Size (c : Char) : Nat :=
  if c.toNat < 0x80 then 1
  else if c.toNat < 0x800 then 2
  else if c.toNat < 0x10000 then 3
  else 4

/-- Model of Rust `str::len`: the UTF-8 byte length of a string. -/
def utf8Len (s : String) : Nat :=
  s.data.foldl (fun n c => n + charUtf8Size c) 0

/-- Digit-list form of `parseU64` below. -/
def parseU64Chars (l : List Char) : Option Nat :=
  let digits := match l with
    | '+' :: rest => rest
    | l => l
  if digits.isEmpty || !digits.all Char.isDigit then none
  else
    let v := digits.foldl (fun acc c => acc * 10 + (c.toNat - '0'.toNat)) 0
    if v < 2 ^ 64 then some v else none

/-- Model of Rust `u64::from_str` as used on bucket keys: an optional leading
plus sign, then one or more ASCII digits, value below `2 ^ 64`. -/
def parseU64 (s : String) : Option Nat :=
  parseU64Chars s.data

/-! ## Board-name handling

Embedding of `crates/taskbook-common/src/board.rs`. -/

/-- The default board name used when no board is specified
(`board.rs`, `DEFAULT_BOARD`). -/
def DEFAULT_BOARD : String := "My Board"

/-- Embedding of `board.rs::normalize_board_name`: trim whitespace, strip the
leading `@`s, trim again; the empty result and the aliases `myboard` and
`my board` (ASCII-case-insensitive) map to the default board. -/
def normalize_board_name (raw : String) : String :=
  let trimmed := rustTrim (trimStartMatchesAt (rustTrim raw))
  if trimmed.isEmpty || eqIgnoreAsciiCase trimmed "myboard" ||
      eqIgnoreAsciiCase trimmed "my board" then
    DEFAULT_BOARD
  else
    trimmed

/-- Embedding of `board.rs::board_eq`: ASCII-case-insensitive comparison. -/
def board_eq (a b : String) : Bool :=
  eqIgnoreAsciiCase a b

/-! ## Item model

Embedding of `crates/taskbook-common/src/models/{task,note,mod}.rs`.
Rust `u64`, `i64` and `u8` fields are modelled as `Nat` and `Int`; the range
constraints carried by the Rust types reappear as well-formedness
hypotheses where they matter. -/

/-- Embedding of `models/task.rs::Task`. -/
structure Task where
  id : Nat
  date : String
  timestamp : Int
  is_task_flag : Bool
  description : String
  is_starred : Bool
  is_complete : Bool
  in_progress : Bool
  priority : Nat
  boards : List String
  tags : List String
  deriving Repr, DecidableEq

/-- Embedding of `models/note.rs::Note`. -/
structure Note where
  id : Nat
  date : String
  timestamp : Int
  is_task_flag : Bool
  description : String
  body : Option String
  is_starred : Bool
  boards : List String
  tags : List String
  deriving Repr, DecidableEq

/-- Embedding of `models/mod.rs::StorageItem`. -/
inductive StorageItem where
  | task (t : Task) : StorageItem
  | note (n : Note) : StorageItem
  deriving Repr, DecidableEq

namespace StorageItem

/-- Embedding of `StorageItem::description`. -/
def description : StorageItem → String
  | .task t => t.description
  | .note n => n.description

/-- Embedding of `StorageItem::id`. -/
def idOf : StorageItem → Nat
  | .task t => t.id
  | .note n => n.id

/-- Embedding of `StorageItem::boards`. -/
def boards : StorageItem → List String
  | .task t => t.boards
  | .note n => n.boards

/-- Embedding of `StorageItem::tags`. -/
def tags : StorageItem → List String
  | .task t => t.tags
  | .note n => n.tags

/-- Embedding of `StorageItem::is_starred`. -/
def is_starred : StorageItem → Bool
  | .task t => t.is_starred
  | .note n => n.is_starred

/-- Embedding of `StorageItem::is_task` (variant test). -/
def is_task : StorageItem → Bool
  | .task _ => true
  | .note _ => false

/-- Embedding of `StorageItem::as_task`. -/
def as_task : StorageItem → Option Task
  | .task t => some t
  | .note _ => none

/-- Embedding of `StorageItem::set_description`. -/
def set_description (it : StorageItem) (desc : String) : StorageItem :=
  match it with
  | .task t => .task { t with description := desc }
  | .note n => .note { n with description := desc }

/-- Embedding of `StorageItem::set_starred`. -/
def set_starred (it : StorageItem) (b : Bool) : StorageItem :=
  match it with
  | .task t => .task { t with is_starred := b }
  | .note n => .note { n with is_starred := b }

/-- Embedding of `StorageItem::set_boards`. -/
def set_boards (it : StorageItem) (bs : List String) : StorageItem :=
  match it with
  | .task t => .task { t with boards := bs }
  | .note n => .note { n with boards := bs }

/-- Assignment of a fresh id on a cross-bucket move, as done inline in
`Taskbook::save_item_to_archive` / `save_item_to_storage`. -/
def setId (it : StorageItem) (newId : Nat) : StorageItem :=
  match it with
  | .task t => .task { t with id := newId }
  | .note n => .note { n with id := newId }

end StorageItem

/-! ## JSON value model and serde embedding -/

/-- JSON value model, mirroring `serde_json::Value` for the payloads this
program produces and consumes (integral numbers only: every numeric field of
the item model is an integer type in the source). -/
inductive Json where
  | null : Json
  | bool (b : Bool) : Json
  | num (n : Int) : Json
  | str (s : String) : Json
  | arr (elems : List Json) : Json
  | obj (fields : List (String × Json)) : Json

/-- Lookup of a field in an object's field list (first occurrence; the
objects this program builds and parses carry no duplicate keys). -/
def findField (fields : List (String × Json)) (name : String) : Option Json :=
  match fields with
  | [] => none
  | (k, v) :: rest => if k = name then some v else findField rest name

/-- Model of `serde_json::Value::get`: field lookup on objects, `none` on
every other value. -/
def Json.get (j : Json) (name : String) : Option Json :=
  match j with
  | .obj fields => findField fields name
  | _ => none

/-- Model of `serde_json::Value::as_bool`. -/
def Json.asBool : Json → Option Bool
  | .bool b => some b
  | _ => none

/-! ### Serialization (serde `Serialize` derives)

Fields are emitted in declaration order under their renamed keys; `tags`
is skipped when empty and a note's `body` is skipped when absent, per the
`skip_serializing_if` attributes. -/

/-- Serialization of a `Task`, mirroring its serde derive. -/
def taskToJson (t : Task) : Json :=
  .obj ([("_id", .num (.ofNat t.id)), ("_date", .str t.date),
    ("_timestamp", .num t.timestamp), ("_isTask", .bool t.is_task_flag),
    ("description", .str t.description), ("isStarred", .bool t.is_starred),
    ("isComplete", .bool t.is_complete), ("inProgress", .bool t.in_progress),
    ("priority", .num (.ofNat t.priority)),
    ("boards", .arr (t.boards.map Json.str))] ++
    (if t.tags.isEmpty then [] else [("tags", .arr (t.tags.map Json.str))]))

/-- Serialization of a `Note`, mirroring its serde derive. -/
def noteToJson (n : Note) : Json :=
  .obj ([("_id", .num (.ofNat n.id)), ("_date", .str n.date),
    ("_timestamp", .num n.timestamp), ("_isTask", .bool n.is_task_flag),
    ("description", .str n.description)] ++
    (match n.body with
      | some b => [("body", .str b)]
      | none => []) ++
    [("isStarred", .bool n.is_starred),
      ("boards", .arr (n.boards.map Json.str))] ++
    (if n.tags.isEmpty then [] else [("tags", .arr (n.tags.map Json.str))]))

/-- Serialization of a `StorageItem`: serde's untagged representation
serializes the inner value directly. -/
def storageItemToJson : StorageItem → Json
  | .task t => taskToJson t
  | .note n => noteToJson n

/-! ### Deserialization (serde `Deserialize`)

Required fields are looked up under their renamed keys; unknown fields are
ignored (no `deny_unknown_fields`); `tags` defaults to the empty list and a
note's `body` to `none`. Integer fields carry the range checks of their Rust
types. Parse failures are modelled as `Except.error` with a message. -/

/-- Required field lookup. -/
def reqField (fields : List (String × Json)) (name : String) :
    Except String Json :=
  match findField fields name with
  | some v => .ok v
  | none => .error ("missing field " ++ name)

/-- Parse a JSON value as a Rust `u64`: a non-negative integer below
`2 ^ 64`. -/
def asU64 : Json → Except String Nat
  | .num (.ofNat m) => if m < 2 ^ 64 then .ok m else .error "invalid u64"
  | .num (.negSucc _) => .error "invalid u64"
  | _ => .error "expected u64"

/-- Parse a JSON value as a Rust `i64`: an integer in
`[-(2 ^ 63), 2 ^ 63)`. -/
def asI64 : Json → Except String Int
  | .num (.ofNat m) =>
      if m < 2 ^ 63 then .ok (.ofNat m) else .error "invalid i64"
  | .num (.negSucc m) =>
      if m < 2 ^ 63 then .ok (.negSucc m) else .error "invalid i64"
  | _ => .error "expected i64"

/-- Parse a JSON value as a Rust `u8`: a non-negative integer below 256. -/
def asU8 : Json → Except String Nat
  | .num (.ofNat m) => if m < 256 then .ok m else .error "invalid u8"
  | .num (.negSucc _) => .error "invalid u8"
  | _ => .error "expected u8"

/-- Parse a JSON value as a `bool`. -/
def asBoolStrict : Json → Except String Bool
  | .bool b => .ok b
  | _ => .error "expected bool"

/-- Parse a JSON value as a `String`. -/
def asStr : Json → Except String String
  | .str s => .ok s
  | _ => .error "expected string"

/-- Parse a list of JSON values as strings. -/
def parseStrings : List Json → Except String (List String)
  | [] => .ok []
  | .str s :: rest => (parseStrings rest).map (fun l => s :: l)
  | _ => .error "expected string"

/-- Parse a JSON value as a `Vec<String>`. -/
def asStringList : Json → Except String (List String)
  | .arr elems => parseStrings elems
  | _ => .error "expected array"

/-- Embedding of `board.rs::deserialize_boards`: parse a string list and
normalize each entry. -/
def deserialize_boards (j : Json) : Except String (List String) :=
  (asStringList j).map (fun l => l.map normalize_board_name)

/-- Optional `tags` field with serde `default`. -/
def parseTags (fields : List (String × Json)) : Except String (List String) :=
  match findField fields "tags" with
  | none => .ok []
  | some v => asStringList v

/-- Optional `body` field of a note: absent or `null` gives `none`. -/
def parseBody (fields : List (String × Json)) :
    Except String (Option String) :=
  match findField fields "body" with
  | none => .ok none
  | some .null => .ok none
  | some (.str s) => .ok (some s)
  | some _ => .error "expected string or null"

/-- Deserialization of a `Task` from a JSON value, mirroring its serde
derive together with the `deserialize_boards` hook on `boards`. -/
def taskFromJson (j : Json) : Except String Task :=
  match j with
  | .obj fields => do
      let id ← reqField fields "_id" >>= asU64
      let date ← reqField fields "_date" >>= asStr
      let timestamp ← reqField fields "_timestamp" >>= asI64
      let flag ← reqField fields "_isTask" >>= asBoolStrict
      let description ← reqField fields "description" >>= asStr
      let starred ← reqField fields "isStarred" >>= asBoolStrict
      let complete ← reqField fields "isComplete" >>= asBoolStrict
      let inProgress ← reqField fields "inProgress" >>= asBoolStrict
      let priority ← reqField fields "priority" >>= asU8
      let boards ← reqField fields "boards" >>= deserialize_boards
      let tags ← parseTags fields
      .ok ⟨id, date, timestamp, flag, description, starred, complete,
        inProgress, priority, boards, tags⟩
  | _ => .error "expected object"

/-- Deserialization of a `Note` from a JSON value, mirroring its serde
derive together with the `deserialize_boards` hook on `boards`. -/
def noteFromJson (j : Json) : Except String Note :=
  match j with
  | .obj fields => do
      let id ← reqField fields "_id" >>= asU64
      let date ← reqField fields "_date" >>= asStr
      let timestamp ← reqField fields "_timestamp" >>= asI64
      let flag ← reqField fields "_isTask" >>= asBoolStrict
      let description ← reqField fields "description" >>= asStr
      let body ← parseBody fields
      let starred ← reqField fields "isStarred" >>= asBoolStrict
      let boards ← reqField fields "boards" >>= deserialize_boards
      let tags ← parseTags fields
      .ok ⟨id, date, timestamp, flag, description, body, starred, boards,
        tags⟩
  | _ => .error "expected object"

/-- Embedding of `impl Deserialize for StorageItem` (`models/mod.rs`): the
`_isTask` field read through `as_bool` with default `true` selects the
variant, then the value is parsed as that variant. -/
def storageItemFromJson (j : Json) : Except String StorageItem :=
  let isTask := ((j.get "_isTask").bind Json.asBool).getD true
  if isTask then
    (taskFromJson j).map StorageItem.task
  else
    (noteFromJson j).map StorageItem.note

/-! ### Buckets as JSON

A bucket (`HashMap<String, StorageItem>`) is serialized as a JSON object.
The map is modelled as an association list without duplicate keys. -/

/-- A bucket: key to item, modelling `HashMap<String, StorageItem>`. -/
abbrev Bucket := List (String × StorageItem)

/-- Serialization of a bucket as a JSON object. -/
def bucketToJson (b : Bucket) : Json :=
  .obj (b.map (fun p => (p.1, storageItemToJson p.2)))

/-- Parse the entries of a bucket object. -/
def parseEntries : List (String × Json) → Except String Bucket
  | [] => .ok []
  | (k, v) :: rest => do
      let it ← storageItemFromJson v
      let b ← parseEntries rest
      .ok ((k, it) :: b)

/-- Deserialization of a bucket from a JSON value. -/
def bucketFromJson (j : Json) : Except String Bucket :=
  match j with
  | .obj fields => parseEntries fields
  | _ => .error "expected object"

/-! ## Serialization round-trip

The JSON produced for an item parses back to the item itself exactly when
the item is well formed: its kind flag agrees with its variant, its numeric
fields fit their Rust integer types (automatic for values built by the
program) and its board names are fixed points of normalization (the
`deserialize_boards` hook rewrites all others). -/

/-- Well-formedness of a task for the round-trip: flag set, integer fields in
range of their Rust types, boards already in canonical form. -/
def WellFormedTask (t : Task) : Prop :=
  t.is_task_flag = true ∧ t.priority < 256 ∧ t.id < 2 ^ 64 ∧
    -(2 ^ 63) ≤ t.timestamp ∧ t.timestamp < 2 ^ 63 ∧
    ∀ b ∈ t.boards, normalize_board_name b = b

/-- Well-formedness of a note for the round-trip. -/
def WellFormedNote (n : Note) : Prop :=
  n.is_task_flag = false ∧ n.id < 2 ^ 64 ∧
    -(2 ^ 63) ≤ n.timestamp ∧ n.timestamp < 2 ^ 63 ∧
    ∀ b ∈ n.boards, normalize_board_name b = b

/-- Well-formedness of a storage item. -/
def WellFormedItem : StorageItem → Prop
  | .task t => WellFormedTask t
  | .note n => WellFormedNote n

instance : DecidablePred WellFormedTask := fun t => by
  unfold WellFormedTask; infer_instance

instance : DecidablePred WellFormedNote := fun n => by
  unfold WellFormedNote; infer_instance

instance : DecidablePred WellFormedItem := fun it => by
  cases it <;> simp only [WellFormedItem] <;> infer_instance

/-! ## Decimal key formatting

Bucket keys are produced by `id.to_string()` on a `u64` and read back with
`str::parse::<u64>`. -/

/-- Decimal digit characters. -/
def digitChar : Nat → Char
  | 0 => '0' | 1 => '1' | 2 => '2' | 3 => '3' | 4 => '4'
  | 5 => '5' | 6 => '6' | 7 => '7' | 8 => '8' | 9 => '9'
  | _ => '*'

/-- Big-endian decimal digits, structurally recursive on a fuel bound (the
fuel argument makes the definition compute by reduction; `toDecimal` below
always supplies enough). -/
def toDecimalAux : Nat → Nat → List Char
  | 0, _ => []
  | fuel + 1, n =>
      if n < 10 then [digitChar n]
      else toDecimalAux fuel (n / 10) ++ [digitChar (n % 10)]

/-- Big-endian decimal representation of a natural number. -/
def toDecimal (n : Nat) : List Char :=
  toDecimalAux (n + 1) n

/-- Model of Rust `u64::to_string` (the `Display` implementation). -/
def natToString (n : Nat) : String :=
  ⟨toDecimal n⟩

/-! ## Encryption envelope

Embedding of `crates/taskbook-common/src/encryption.rs`. -/

/-- Embedding of `taskbook-common/src/error.rs::CommonError`. -/
inductive CommonError where
  | json (msg : String) : CommonError
  | invalidNonce (expected got : Nat) : CommonError
  | decryptionFailed : CommonError
  | encryption (msg : String) : CommonError
  deriving Repr, DecidableEq

/-- Modelled from the spec (section 4.3): the AES-256-GCM primitive of the
external `aes_gcm` crate (not part of this repository), idealized as an
authenticated cipher whose decryption succeeds exactly on a genuine
encryption under the same key and nonce. The ciphertext value records the
key, the nonce and the JSON plaintext it was produced from; byte strings
are lists of byte values. -/
structure AeadCiphertext where
  key : List Nat
  nonce : List Nat
  plaintext : Json

/-- Embedding of `encryption.rs::EncryptedItem`. -/
structure EncryptedItem where
  data : AeadCiphertext
  nonce : List Nat

/-- Embedding of `encryption.rs::encrypt_item`. The freshly drawn random
96-bit nonce is passed explicitly, modelling the RNG draw; serialization of
the item is modelled at the JSON value level, where printing followed by
parsing is the identity. -/
def encrypt_item (key : List Nat) (nonce : List Nat) (item : StorageItem) :
    EncryptedItem :=
  ⟨⟨key, nonce, storageItemToJson item⟩, nonce⟩

/-- Embedding of `encryption.rs::decrypt_item`: reject a nonce whose length
is not 12, authenticated decryption with the stored nonce (idealized as
above), then JSON parsing back to the item model. -/
def decrypt_item (key : List Nat) (e : EncryptedItem) :
    Except CommonError StorageItem :=
  if e.nonce.length ≠ 12 then
    .error (.invalidNonce 12 e.nonce.length)
  else if e.data.key = key ∧ e.data.nonce = e.nonce then
    match storageItemFromJson e.data.plaintext with
    | .ok it => .ok it
    | .error msg => .error (.json msg)
  else
    .error .decryptionFailed

/-! ## Local storage backend

Embedding of `crates/taskbook-client/src/storage/local.rs`. Each bucket file
is modelled by the JSON value it holds (`serde_json` pretty-printing
followed by parsing is the identity at the value level); an absent file is
`none`. Locking and the temp-file atomic rename are operating-system
concerns outside the embedding. -/

/-- The two bucket files of a local storage root. -/
structure LocalStorageState where
  storage_file : Option Json
  archive_file : Option Json

/-- Embedding of `LocalStorage::read_json_file`: an absent file yields the
empty map, otherwise the content is parsed as a map of key to item. -/
def read_json_file (file : Option Json) : Except String Bucket :=
  match file with
  | none => .ok []
  | some j => bucketFromJson j

/-- Embedding of `LocalStorage::write_json_file`: the target file afterwards
holds the serialized map. -/
def write_json_file (data : Bucket) : Option Json :=
  some (bucketToJson data)

/-- Embedding of `<LocalStorage as StorageBackend>::get`. -/
def localGet (s : LocalStorageState) : Except String Bucket :=
  read_json_file s.storage_file

/-- Embedding of `<LocalStorage as StorageBackend>::get_archive`. -/
def localGetArchive (s : LocalStorageState) : Except String Bucket :=
  read_json_file s.archive_file

/-- Embedding of `<LocalStorage as StorageBackend>::set`. -/
def localSet (s : LocalStorageState) (data : Bucket) : LocalStorageState :=
  { s with storage_file := write_json_file data }

/-- Embedding of `<LocalStorage as StorageBackend>::set_archive`. -/
def localSetArchive (s : LocalStorageState) (data : Bucket) :
    LocalStorageState :=
  { s with archive_file := write_json_file data }

/-! ## Client task service

Embedding of `crates/taskbook-client/src/taskbook.rs`. The two buckets
reached through the storage backend are modelled as association lists (the
`HashMap` contract: no duplicate keys); `get`/`set` become reads and writes
of a two-bucket state, and rendering is dropped (output only). -/

/-- Modelled from the spec: the client error enum (`taskbook-client`'s
`error.rs` is not among the provided sources; the variants are those its
callers in `taskbook.rs` construct, matching the error taxonomy of
section 7). -/
inductive TaskbookError where
  | invalidId (id : Nat) : TaskbookError
  | general (msg : String) : TaskbookError
  | noItemsToCopy : TaskbookError
  deriving Repr, DecidableEq

/-- The client-visible store: active and archive buckets. -/
structure StoreState where
  active : Bucket
  archive : Bucket
  deriving Repr, DecidableEq

/-- Lookup in a bucket, as `HashMap::get` (first occurrence). -/
def bucketGet (b : Bucket) (k : String) : Option StorageItem :=
  match b with
  | [] => none
  | (k', it) :: rest => if k' = k then some it else bucketGet rest k

/-- Removal from a bucket, as `HashMap::remove`: the removed item, if any,
together with the remaining bucket. -/
def bucketRemove (b : Bucket) (k : String) :
    Option StorageItem × Bucket :=
  match b with
  | [] => (none, [])
  | (k', it) :: rest =>
      if k' = k then (some it, rest)
      else
        let r := bucketRemove rest k
        (r.1, (k', it) :: r.2)

/-- Insertion into a bucket, as `HashMap::insert`: replace the entry of an
existing key, otherwise add the entry. -/
def bucketInsert (b : Bucket) (k : String) (it : StorageItem) : Bucket :=
  match b with
  | [] => [(k, it)]
  | (k', it') :: rest =>
      if k' = k then (k, it) :: rest
      else (k', it') :: bucketInsert rest k it

/-- In-place update of the entry of `k`, as the `get_mut` pattern
`if let Some(item) = data.get_mut(..)`. -/
def bucketModify (b : Bucket) (k : String) (f : StorageItem → StorageItem) :
    Bucket :=
  match b with
  | [] => []
  | (k', it) :: rest =>
      if k' = k then (k', f it) :: rest
      else (k', it) :: bucketModify rest k f

/-- Embedding of `Taskbook::generate_id`: one more than the largest key that
parses as a `u64` (so 1 on a bucket without numeric keys). -/
def generate_id (data : Bucket) : Nat :=
  ((data.map Prod.fst).filterMap parseU64).foldl max 0 + 1

/-- Embedding of `Taskbook::get_ids`: the set of keys parsing as `u64`,
as a list. -/
def get_ids (data : Bucket) : List Nat :=
  (data.map Prod.fst).filterMap parseU64

/-- Embedding of `Taskbook::remove_duplicates`: first-occurrence
deduplication preserving order. -/
def remove_duplicates (seen : List Nat) : List Nat → List Nat
  | [] => []
  | id :: rest =>
      if id ∈ seen then remove_duplicates seen rest
      else id :: remove_duplicates (id :: seen) rest

/-- Embedding of `Taskbook::validate_ids_silent` (and of `validate_ids`,
whose only difference is rendering): reject an empty id list, deduplicate,
then reject at the first id absent from the existing set. -/
def validate_ids (input_ids : List Nat) (existing_ids : List Nat) :
    Except TaskbookError (List Nat) :=
  if input_ids.isEmpty then .error (.invalidId 0)
  else
    let unique_ids := remove_duplicates [] input_ids
    match unique_ids.find? (fun id => !existing_ids.contains id) with
    | some id => .error (.invalidId id)
    | none => .ok unique_ids

/-- Embedding of `Taskbook::save_item_to_archive`: draw a fresh archive id,
overwrite the item's own id with it, insert under the stringified id. -/
def save_item_to_archive (archive : Bucket) (item : StorageItem) : Bucket :=
  let archive_id := generate_id archive
  bucketInsert archive (natToString archive_id) (item.setId archive_id)

/-- Embedding of `Taskbook::save_item_to_storage` (restore direction). -/
def save_item_to_storage (data : Bucket) (item : StorageItem) : Bucket :=
  let restore_id := generate_id data
  bucketInsert data (natToString restore_id) (item.setId restore_id)

/-- The per-task mutation of `check_tasks` / `check_tasks_silent`:
`in_progress` is cleared and `is_complete` inverted on tasks, notes are
untouched. -/
def checkTransform (it : StorageItem) : StorageItem :=
  match it with
  | .task t =>
      .task { t with in_progress := false, is_complete := !t.is_complete }
  | .note n => .note n

/-- The per-task mutation of `begin_tasks` / `begin_tasks_silent`:
`is_complete` is cleared and `in_progress` inverted on tasks. -/
def beginTransform (it : StorageItem) : StorageItem :=
  match it with
  | .task t =>
      .task { t with is_complete := false, in_progress := !t.in_progress }
  | .note n => .note n

/-- The loop body shared by the id-iterating mutators: apply `f` to the
entry of each validated id in order. -/
def applyToIds (f : StorageItem → StorageItem) (ids : List Nat)
    (b : Bucket) : Bucket :=
  ids.foldl (fun acc id => bucketModify acc (natToString id) f) b

/-- Embedding of `Taskbook::check_tasks` / `check_tasks_silent` (the CLI
variant differs only in rendering). -/
def check_tasks (ids : List Nat) (s : StoreState) :
    Except TaskbookError StoreState := do
  let validated ← validate_ids ids (get_ids s.active)
  .ok { s with active := applyToIds checkTransform validated s.active }

/-- Embedding of `Taskbook::begin_tasks` / `begin_tasks_silent`. -/
def begin_tasks (ids : List Nat) (s : StoreState) :
    Except TaskbookError StoreState := do
  let validated ← validate_ids ids (get_ids s.active)
  .ok { s with active := applyToIds beginTransform validated s.active }

/-- Embedding of `Taskbook::star_items` / `star_items_silent`. -/
def star_items (ids : List Nat) (s : StoreState) :
    Except TaskbookError StoreState := do
  let validated ← validate_ids ids (get_ids s.active)
  .ok { s with active := (applyToIds
    (fun it => it.set_starred (!it.is_starred)) validated s.active) }

/-- The deletion loop of `delete_items`: remove each id from the active
bucket and archive the removed item (the archive is re-read and re-written
per item in the source; sequential state passing models that). -/
def deleteFold (ids : List Nat) (active archive : Bucket) :
    Bucket × Bucket :=
  match ids with
  | [] => (active, archive)
  | id :: rest =>
      let r := bucketRemove active (natToString id)
      match r.1 with
      | some item => deleteFold rest r.2 (save_item_to_archive archive item)
      | none => deleteFold rest r.2 archive

/-- Embedding of `Taskbook::delete_items` / `delete_items_silent`. -/
def delete_items (ids : List Nat) (s : StoreState) :
    Except TaskbookError StoreState := do
  let validated ← validate_ids ids (get_ids s.active)
  let r := deleteFold validated s.active s.archive
  .ok { active := r.1, archive := r.2 }

/-- The restore loop of `restore_items`, symmetric to `deleteFold`. -/
def restoreFold (ids : List Nat) (archive active : Bucket) :
    Bucket × Bucket :=
  match ids with
  | [] => (archive, active)
  | id :: rest =>
      let r := bucketRemove archive (natToString id)
      match r.1 with
      | some item => restoreFold rest r.2 (save_item_to_storage active item)
      | none => restoreFold rest r.2 active

/-- Embedding of `Taskbook::restore_items` / `restore_items_silent`. -/
def restore_items (ids : List Nat) (s : StoreState) :
    Except TaskbookError StoreState := do
  let validated ← validate_ids ids (get_ids s.archive)
  let r := restoreFold validated s.archive s.active
  .ok { active := r.2, archive := r.1 }

/-- Embedding of `Taskbook::edit_description_silent`. -/
def edit_description_silent (id : Nat) (new_desc : String) (s : StoreState) :
    Except TaskbookError StoreState := do
  let _ ← validate_ids [id] (get_ids s.active)
  .ok { s with active := (bucketModify s.active (natToString id)
    (fun it => it.set_description new_desc)) }

/-- Embedding of `Taskbook::move_boards_silent`: normalize the caller's
board list and store it unconditionally. -/
def move_boards_silent (id : Nat) (boards : List String) (s : StoreState) :
    Except TaskbookError StoreState := do
  let _ ← validate_ids [id] (get_ids s.active)
  let normalized := boards.map normalize_board_name
  .ok { s with active := (bucketModify s.active (natToString id)
    (fun it => it.set_boards normalized)) }

/-- Embedding of `Taskbook::update_priority_silent`: store the caller's
priority value on a task unconditionally. -/
def update_priority_silent (id : Nat) (priority : Nat) (s : StoreState) :
    Except TaskbookError StoreState := do
  let _ ← validate_ids [id] (get_ids s.active)
  .ok { s with active := (bucketModify s.active (natToString id)
    (fun it => match it with
      | .task t => .task { t with priority := priority }
      | .note n => .note n)) }

/-- Embedding of `Task::new`: the current clock is passed explicitly as the
date string and millisecond timestamp; priority is clamped to 1..3. -/
def taskNew (date : String) (timestamp : Int) (id : Nat)
    (description : String) (boards : List String) (priority : Nat) : Task :=
  { id := id, date := date, timestamp := timestamp, is_task_flag := true,
    description := description, is_starred := false, is_complete := false,
    in_progress := false, priority := min (max priority 1) 3,
    boards := boards, tags := [] }

/-- Embedding of `Note::new`. -/
def noteNew (date : String) (timestamp : Int) (id : Nat)
    (description : String) (boards : List String) : Note :=
  { id := id, date := date, timestamp := timestamp, is_task_flag := false,
    description := description, body := none, is_starred := false,
    boards := boards, tags := [] }

/-- Embedding of `Taskbook::create_task_direct`. -/
def create_task_direct (date : String) (timestamp : Int)
    (boards : List String) (description : String) (priority : Nat)
    (s : StoreState) : Except TaskbookError StoreState :=
  if description.isEmpty then .error (.invalidId 0)
  else
    let id := generate_id s.active
    .ok { s with active := (bucketInsert s.active (natToString id)
      (.task (taskNew date timestamp id description boards priority))) }

/-- Embedding of `Taskbook::create_note_direct`. -/
def create_note_direct (date : String) (timestamp : Int)
    (boards : List String) (description : String) (s : StoreState) :
    Except TaskbookError StoreState :=
  if description.isEmpty then .error (.invalidId 0)
  else
    let id := generate_id s.active
    .ok { s with active := (bucketInsert s.active (natToString id)
      (.note (noteNew date timestamp id description boards))) }

/-- Embedding of `Taskbook::clear` / `clear_silent`: collect the ids of
completed tasks, then delete them through the archive path. -/
def clear (s : StoreState) : StoreState :=
  let ids_to_delete := s.active.filterMap (fun p =>
    match p.2.as_task with
    | some t => if t.is_complete then parseU64 p.1 else none
    | none => none)
  if ids_to_delete.isEmpty then s
  else
    let r := deleteFold ids_to_delete s.active s.archive
    { active := r.1, archive := r.2 }

/-- Embedding of `Taskbook::move_boards` (the CLI variant): a single `@id`
target, the remaining words normalized and deduplicated as the new board
list, rejected when empty. -/
def move_boards (input : List String) (s : StoreState) :
    Except TaskbookError StoreState :=
  match input.filter (fun w => startsWithAt w) with
  | [] => .error (.invalidId 0)
  | [target] =>
      match parseU64 (trimStartMatchesAt target) with
      | none => .error (.invalidId 0)
      | some id => do
          let validated ← validate_ids [id] (get_ids s.active)
          let boards := input.foldl (fun acc word =>
            if word ≠ target then
              let normalized := normalize_board_name word
              if acc.any (fun b => board_eq b normalized) then acc
              else acc ++ [normalized]
            else acc) []
          if boards.isEmpty then .error (.invalidId 0)
          else
            .ok { s with active := (bucketModify s.active
              (natToString validated.headI)
              (fun it => it.set_boards boards)) }
  | _ :: _ :: _ => .error (.invalidId 0)

/-- Embedding of `Taskbook::update_priority` (the CLI variant): the level is
the first input word that is literally 1, 2 or 3 (rejected when none), the
target a single `@id`. -/
def update_priority (input : List String) (s : StoreState) :
    Except TaskbookError StoreState :=
  match input.find? (fun x => x = "1" || x = "2" || x = "3") with
  | none => .error (.invalidId 0)
  | some lvl =>
      let level := (parseU64 lvl).getD 0
      match input.filter (fun w => startsWithAt w) with
      | [] => .error (.invalidId 0)
      | [target] =>
          match parseU64 (trimStartMatchesAt target) with
          | none => .error (.invalidId 0)
          | some id => do
              let validated ← validate_ids [id] (get_ids s.active)
              .ok { s with active := (bucketModify s.active
                (natToString validated.headI)
                (fun it => match it with
                  | .task t => .task { t with priority := level }
                  | .note n => .note n)) }
      | _ :: _ :: _ => .error (.invalidId 0)

/-! ## Server

Embedding of `crates/taskbook-server/src/error.rs` and of the handlers in
`handlers/user.rs` and `handlers/items.rs`. Database effects are modelled as
pure state: a user table as a list of rows, a bucket as a list of rows; a
handler returning an error leaves the state unchanged (the source wraps the
writes of `replace_items` in one transaction that aborts on error, and
`register` validates before its single insert). -/

/-- Embedding of `taskbook-server/src/error.rs::ServerError`. -/
inductive ServerError where
  | database (msg : String) : ServerError
  | unauthorized : ServerError
  | invalidCredentials : ServerError
  | userAlreadyExists : ServerError
  | validation (msg : String) : ServerError
  | internal (msg : String) : ServerError
  | rateLimited : ServerError
  deriving Repr, DecidableEq

/-- Embedding of `impl IntoResponse for ServerError`: the HTTP status code
of each error kind. -/
def statusOf : ServerError → Nat
  | .database _ => 500
  | .unauthorized => 401
  | .invalidCredentials => 401
  | .userAlreadyExists => 409
  | .validation _ => 400
  | .internal _ => 500
  | .rateLimited => 429

/-- Embedding of `handlers/user.rs::RegisterRequest`. -/
structure RegisterRequest where
  username : String
  email : String
  password : String
  deriving Repr, DecidableEq

/-- A row of the `users` table, reduced to its unique-key columns. -/
structure UserRow where
  username : String
  email : String
  deriving Repr, DecidableEq

/-- Modelled from the Rust standard library: `char::is_alphanumeric`
(Unicode Alphabetic or general category Nd, Nl, No), written out exactly
for the codepoints below U+0100 that this development evaluates it on. -/
def latin1IsAlphanumeric (c : Char) : Bool :=
  c.isAlpha || c.isDigit ||
    [0xAA, 0xB2, 0xB3, 0xB5, 0xB9, 0xBA, 0xBC, 0xBD, 0xBE].contains
      c.toNat ||
    (0xC0 ≤ c.toNat && c.toNat ≤ 0xFF && c.toNat ≠ 0xD7 && c.toNat ≠ 0xF7)

/-- Embedding of `handlers/user.rs::validate_registration`, parameterized by
the standard library's alphanumeric test (`char::is_alphanumeric`, of which
`latin1IsAlphanumeric` is the below-U+0100 restriction). The checks, their
order and the byte-length measures mirror the source. -/
def validate_registration (isAlnum : Char → Bool) (req : RegisterRequest) :
    Except ServerError Unit :=
  if req.username.isEmpty || req.password.isEmpty || req.email.isEmpty then
    .error (.validation "username, email, and password are required")
  else if utf8Len req.username > 64 then
    .error (.validation "username must be at most 64 characters")
  else if !(req.username.data.all
      (fun c => isAlnum c || c = '_' || c = '-')) then
    .error (.validation
      "username must contain only alphanumeric characters, hyphens, or underscores")
  else if utf8Len req.email > 255 then
    .error (.validation "email must be at most 255 characters")
  else if !(req.email.data.contains '@') || !(req.email.data.contains '.')
      then
    .error (.validation "email must be a valid email address")
  else if utf8Len req.password < 8 then
    .error (.validation "password must be at least 8 characters")
  else if utf8Len req.password > 1024 then
    .error (.validation "password must be at most 1024 characters")
  else
    .ok ()

/-- Embedding of `handlers/user.rs::register`: rate-limit check, validation,
then the single `INSERT` whose unique-key violation surfaces as
`UserAlreadyExists`. Password hashing and session-token creation do not
affect the user table and are elided. On success the new row is appended. -/
def register (isAlnum : Char → Bool) (rateLimitOk : Bool)
    (users : List UserRow) (req : RegisterRequest) :
    Except ServerError (List UserRow) :=
  if !rateLimitOk then .error .rateLimited
  else do
    let _ ← validate_registration isAlnum req
    if users.any (fun u =>
        u.username = req.username || u.email = req.email) then
      .error .userAlreadyExists
    else
      .ok (users ++ [⟨req.username, req.email⟩])

/-! ### Items replacement -/

/-- Embedding of `handlers/items.rs::EncryptedItemData`: base64-encoded
ciphertext and nonce. -/
structure EncryptedItemData where
  data : String
  nonce : String
  deriving Repr, DecidableEq

/-- A row of the `items` table: key, ciphertext bytes, nonce bytes. -/
abbrev ItemRow := String × List Nat × List Nat

/-- Base64 alphabet value of a character (standard alphabet). -/
def b64Index (c : Char) : Option Nat :=
  if 'A' ≤ c ∧ c ≤ 'Z' then some (c.toNat - 'A'.toNat)
  else if 'a' ≤ c ∧ c ≤ 'z' then some (c.toNat - 'a'.toNat + 26)
  else if '0' ≤ c ∧ c ≤ '9' then some (c.toNat - '0'.toNat + 52)
  else if c = '+' then some 62
  else if c = '/' then some 63
  else none

/-- Model of the `base64` crate's `STANDARD` engine decode: groups of four
characters, canonical `=` padding only in the final group, non-zero trailing
bits rejected. -/
def base64DecodeGroups : List Char → Option (List Nat)
  | [] => some []
  | c1 :: c2 :: c3 :: c4 :: rest =>
      match b64Index c1, b64Index c2 with
      | some a, some b =>
          if c3 = '=' then
            if c4 = '=' ∧ rest = [] then
              if b % 16 = 0 then some [a * 4 + b / 16] else none
            else none
          else
            match b64Index c3 with
            | some c =>
                if c4 = '=' then
                  if rest = [] then
                    if c % 4 = 0 then
                      some [a * 4 + b / 16, b % 16 * 16 + c / 4]
                    else none
                  else none
                else
                  match b64Index c4 with
                  | some d =>
                      (base64DecodeGroups rest).map (fun tail =>
                        (a * 4 + b / 16) :: (b % 16 * 16 + c / 4) ::
                          (c % 4 * 64 + d) :: tail)
                  | none => none
            | none => none
      | _, _ => none
  | _ => none

/-- Base64 decode of a string. -/
def base64Decode (s : String) : Option (List Nat) :=
  base64DecodeGroups s.data

/-- Maximum number of items a user can store per category
(`handlers/items.rs::MAX_ITEMS_PER_CATEGORY`). -/
def MAX_ITEMS_PER_CATEGORY : Nat := 10000

/-- The per-item size validation loop of `replace_items`, in order: key at
most 64 bytes, base64 nonce at most 24 bytes, base64 data at most 1400000
bytes. -/
def validateItemSizes : List (String × EncryptedItemData) →
    Except ServerError Unit
  | [] => .ok ()
  | (key, item) :: rest =>
      if utf8Len key > 64 then
        .error (.validation "item key must be at most 64 characters")
      else if utf8Len item.nonce > 24 then
        .error (.validation "invalid nonce size")
      else if utf8Len item.data > 1400000 then
        .error (.validation "item data too large")
      else validateItemSizes rest

/-- The insertion loop of `replace_items`: base64-decode each data and nonce
into a fresh row; a decode failure aborts. -/
def decodeRows : List (String × EncryptedItemData) →
    Except ServerError (List ItemRow)
  | [] => .ok []
  | (key, item) :: rest =>
      match base64Decode item.data with
      | none => .error (.validation "invalid base64 data")
      | some data =>
          match base64Decode item.nonce with
          | none => .error (.validation "invalid base64 nonce")
          | some nonce =>
              (decodeRows rest).map (fun tail => (key, data, nonce) :: tail)

/-- Embedding of `handlers/items.rs::replace_items`: the count cap, the
size-validation loop, then the transactional delete-and-insert, whose
result is the full set of decoded rows. -/
def replace_items (items : List (String × EncryptedItemData)) :
    Except ServerError (List ItemRow) :=
  if items.length > MAX_ITEMS_PER_CATEGORY then
    .error (.validation "too many items")
  else do
    let _ ← validateItemSizes items
    decodeRows items

/-- The transaction semantics of `replace_items` on the owner's bucket: the
bucket is replaced on commit and untouched when the transaction aborts. -/
def replace_items_txn (items : List (String × EncryptedItemData))
    (bucket : List ItemRow) : List ItemRow :=
  match replace_items items with
  | .ok rows => rows
  | .error _ => bucket

/-! ## Operation sequences and bucket invariants

The task-service operations named by the specification, as one step type;
a failing operation leaves the store unchanged (it returns before its
`save`). -/

/-- One task-service operation with its arguments (the clock of a creation
is passed explicitly). -/
inductive Op where
  | createTask (date : String) (timestamp : Int) (boards : List String)
      (description : String) (priority : Nat) : Op
  | createNote (date : String) (timestamp : Int) (boards : List String)
      (description : String) : Op
  | check (ids : List Nat) : Op
  | begin (ids : List Nat) : Op
  | star (ids : List Nat) : Op
  | priority (id : Nat) (p : Nat) : Op
  | priorityCli (input : List String) : Op
  | editDescription (id : Nat) (desc : String) : Op
  | moveSilent (id : Nat) (boards : List String) : Op
  | moveCli (input : List String) : Op
  | deleteOp (ids : List Nat) : Op
  | restoreOp (ids : List Nat) : Op
  | clearOp : Op

/-- Run one operation. -/
def runOp : Op → StoreState → Except TaskbookError StoreState
  | .createTask date ts boards desc p, s =>
      create_task_direct date ts boards desc p s
  | .createNote date ts boards desc, s =>
      create_note_direct date ts boards desc s
  | .check ids, s => check_tasks ids s
  | .begin ids, s => begin_tasks ids s
  | .star ids, s => star_items ids s
  | .priority id p, s => update_priority_silent id p s
  | .priorityCli input, s => update_priority input s
  | .editDescription id desc, s => edit_description_silent id desc s
  | .moveSilent id boards, s => move_boards_silent id boards s
  | .moveCli input, s => move_boards input s
  | .deleteOp ids, s => delete_items ids s
  | .restoreOp ids, s => restore_items ids s
  | .clearOp, s => .ok (clear s)

/-- The store after an operation: the new state on success, the old state
when the operation was rejected. -/
def applyOp (op : Op) (s : StoreState) : StoreState :=
  match runOp op s with
  | .ok s2 => s2
  | .error _ => s

/-- The store after a sequence of operations. -/
def runOps (ops : List Op) (s : StoreState) : StoreState :=
  ops.foldl (fun s op => applyOp op s) s

/-- Every item of a bucket satisfies `P`. -/
def BucketOk (P : StorageItem → Prop) (b : Bucket) : Prop :=
  ∀ p ∈ b, P p.2

/-- Every item of both buckets satisfies `P`. -/
def StateOk (P : StorageItem → Prop) (s : StoreState) : Prop :=
  BucketOk P s.active ∧ BucketOk P s.archive

instance {P : StorageItem → Prop} [DecidablePred P] (b : Bucket) :
    Decidable (BucketOk P b) := by
  unfold BucketOk; infer_instance

instance {P : StorageItem → Prop} [DecidablePred P] (s : StoreState) :
    Decidable (StateOk P s) := by
  unfold StateOk; infer_instance

/-- Mutual exclusion of `is_complete` and `in_progress` as a boolean test
on one item (invariant I3; notes satisfy it vacuously). -/
def ItemOk (it : StorageItem) : Bool :=
  match it with
  | .task t => !(t.is_complete && t.in_progress)
  | .note _ => true

/-- Invariant I3 as a predicate shape for `BucketOk`. -/
def POk (it : StorageItem) : Prop := ItemOk it = true

instance : DecidablePred POk := fun it => by
  unfold POk; infer_instance

/-- Invariant I2 (a non-empty board list) as a predicate shape for
`BucketOk`. -/
def PBoards (it : StorageItem) : Prop := it.boards ≠ []

instance : DecidablePred PBoards := fun it => by
  unfold PBoards; infer_instance

/-- An operation whose caller-supplied board lists are non-empty. The CLI
variants validate this themselves; `create_task_direct`,
`create_note_direct` and `move_boards_silent` store the caller's list
unchecked. -/
def OpBoardsSafe : Op → Prop
  | .createTask _ _ boards _ _ => boards ≠ []
  | .createNote _ _ boards _ => boards ≠ []
  | .moveSilent _ boards => boards ≠ []
  | _ => True

instance : DecidablePred OpBoardsSafe := fun op => by
  cases op <;> (dsimp only [OpBoardsSafe]; infer_instance)

/-! ## Bucket lemmas for the delete path -/

instance {ε α : Type} [DecidableEq ε] [DecidableEq α] :
    DecidableEq (Except ε α) := fun a b =>
  match a, b with
  | .error e, .error f =>
      if h : e = f then .isTrue (by rw [h])
      else .isFalse (fun hh => by cases hh; exact h rfl)
  | .ok x, .ok y =>
      if h : x = y then .isTrue (by rw [h])
      else .isFalse (fun hh => by cases hh; exact h rfl)
  | .error _, .ok _ => .isFalse (fun hh => Except.noConfusion hh)
  | .ok _, .error _ => .isFalse (fun hh => Except.noConfusion hh)

/-! ## Concrete values for counterexamples and witnesses -/

/-- A 32-byte all-zero key. -/
def cKey : List Nat := List.replicate 32 0

/-- A 12-byte all-zero nonce (the RNG draw of one encryption). -/
def cNonce : List Nat := List.replicate 12 0

/-- A task whose board list carries a legacy `@` prefix: a well-typed Rust
`Task` value, but its board name is not a fixed point of normalization. -/
def cBadBoardsTask : Task :=
  ⟨1, "Mon Jan 01 2024", 0, true, "x", false, false, false, 1, ["@x"], []⟩

/-- A well-formed task. -/
def cGoodTask : Task :=
  ⟨1, "Mon Jan 01 2024", 1704067200000, true, "Fix bug", false, false,
    false, 2, ["My Board"], []⟩

/-- A second well-formed task. -/
def cGoodTask2 : Task :=
  ⟨2, "Mon Jan 01 2024", 1704067200000, true, "Write docs", false, false,
    false, 1, ["My Board"], []⟩

/-- A one-task store. -/
def cState1 : StoreState := ⟨[("1", .task cGoodTask)], []⟩

/-- A two-task store with an empty archive. -/
def cState2 : StoreState :=
  ⟨[("1", .task cGoodTask), ("2", .task cGoodTask2)], []⟩

/-- An encrypted item with a 3-byte nonce (for the nonce-length branch). -/
def cShortNonceItem : EncryptedItem := ⟨⟨cKey, cNonce, .null⟩, [0, 0, 0]⟩

/-- A bucket holding the `@x`-board task. -/
def cBadBucket : Bucket := [("1", .task cBadBoardsTask)]

/-- A complete legacy task payload: every serialized task field except the
`_isTask` discriminator. -/
def cLegacyJson : Json :=
  .obj [("_id", .num 1), ("_date", .str "d"), ("_timestamp", .num 0),
    ("description", .str "x"), ("isStarred", .bool false),
    ("isComplete", .bool false), ("inProgress", .bool false),
    ("priority", .num 2), ("boards", .arr [.str "My Board"])]

theorem except_bind_ok {ε α β : Type} (a : α) (f : α → Except ε β) :
    (Except.ok (ε := ε) a >>= f) = f a := rfl

theorem except_map_ok {ε α β : Type} (a : α) (f : α → β) :
    (Except.ok (ε := ε) a).map f = .ok (f a) := rfl

theorem asU64_ofNat (k : Nat) (h : k < 2 ^ 64) :
    asU64 (.num (k : Int)) = .ok k := by
  have hh : k < 18446744073709551616 := by omega
  show asU64 (.num (Int.ofNat k)) = .ok k
  simp [asU64, hh]

theorem asI64_int (n : Int) (h1 : -(2 ^ 63) ≤ n) (h2 : n < 2 ^ 63) :
    asI64 (.num n) = .ok n := by
  cases n with
  | ofNat m =>
      rw [Int.ofNat_eq_natCast] at h2
      have hm : m < 9223372036854775808 := by omega
      simp [asI64, hm]
  | negSucc m =>
      rw [Int.negSucc_eq] at h1
      have hm : m < 9223372036854775808 := by omega
      simp [asI64, hm]

theorem asU8_ofNat (k : Nat) (h : k < 256) :
    asU8 (.num (k : Int)) = .ok k := by
  show asU8 (.num (Int.ofNat k)) = .ok k
  simp [asU8, h]

theorem parseStrings_map_str (l : List String) :
    parseStrings (l.map Json.str) = .ok l := by
  induction l with
  | nil => rfl
  | cons s rest ih => simp [parseStrings, ih, Except.map]

theorem deserialize_boards_fixed (bs : List String)
    (h : ∀ b ∈ bs, normalize_board_name b = b) :
    deserialize_boards (.arr (bs.map Json.str)) = .ok bs := by
  simp only [deserialize_boards, asStringList, parseStrings_map_str,
    Except.map, List.map_congr_left h, List.map_id']

theorem taskFromJson_taskToJson (t : Task) (h : WellFormedTask t) :
    taskFromJson (taskToJson t) = .ok t := by
  obtain ⟨hflag, hpri, hid, hts1, hts2, hb⟩ := h
  obtain ⟨tid, tdate, tts, tfl, tdesc, tst, tco, tpr, tpri, tbs, ttags⟩ := t
  simp only at hpri hid hts1 hts2 hb
  by_cases htags : ttags = [] <;>
    simp [taskToJson, taskFromJson, htags, reqField, findField,
      except_bind_ok, asU64_ofNat tid hid, asStr,
      asI64_int tts hts1 hts2, asBoolStrict,
      asU8_ofNat tpri hpri, deserialize_boards_fixed tbs hb,
      parseTags, asStringList, parseStrings_map_str]

theorem noteFromJson_noteToJson (n : Note) (h : WellFormedNote n) :
    noteFromJson (noteToJson n) = .ok n := by
  obtain ⟨hflag, hid, hts1, hts2, hb⟩ := h
  obtain ⟨nid, ndate, nts, nfl, ndesc, nbody, nst, nbs, ntags⟩ := n
  simp only at hid hts1 hts2 hb
  by_cases htags : ntags = [] <;>
    rcases nbody with _ | b <;>
      simp [noteToJson, noteFromJson, htags, reqField,
        findField, except_bind_ok, asU64_ofNat nid hid, asStr,
        asI64_int nts hts1 hts2, asBoolStrict,
        deserialize_boards_fixed nbs hb, parseTags, parseBody,
        asStringList, parseStrings_map_str]

theorem storageItemFromJson_roundtrip (it : StorageItem)
    (h : WellFormedItem it) :
    storageItemFromJson (storageItemToJson it) = .ok it := by
  cases it with
  | task t =>
      have hflag : t.is_task_flag = true := h.1
      have hdisc : ((taskToJson t).get "_isTask").bind Json.asBool =
          some true := by
        by_cases htags : t.tags = [] <;>
          simp [taskToJson, Json.get, findField, Json.asBool, htags, hflag]
      simp only [storageItemToJson, storageItemFromJson, hdisc,
        Option.getD_some, if_true]
      rw [taskFromJson_taskToJson t h]
      rfl
  | note n =>
      have hflag : n.is_task_flag = false := h.1
      have hdisc : ((noteToJson n).get "_isTask").bind Json.asBool =
          some false := by
        by_cases htags : n.tags = [] <;>
          rcases hbody : n.body with _ | b <;>
            simp [noteToJson, Json.get, findField, Json.asBool, htags,
              hbody, hflag]
      simp only [storageItemToJson, storageItemFromJson, hdisc,
        Option.getD_some, if_false, Bool.false_eq_true]
      rw [noteFromJson_noteToJson n h]
      rfl

theorem bucketFromJson_bucketToJson (b : Bucket)
    (h : ∀ p ∈ b, WellFormedItem p.2) :
    bucketFromJson (bucketToJson b) = .ok b := by
  induction b with
  | nil => rfl
  | cons p rest ih =>
      have hp := h p (by simp)
      have hrest : ∀ q ∈ rest, WellFormedItem q.2 := fun q hq =>
        h q (by simp [hq])
      have ihr := ih hrest
      simp only [bucketToJson, List.map_cons, bucketFromJson, parseEntries,
        storageItemFromJson_roundtrip p.2 hp, except_bind_ok]
      simp only [bucketToJson, bucketFromJson] at ihr
      simp [ihr, except_bind_ok]

theorem digitChar_isDigit (d : Nat) (h : d < 10) :
    (digitChar d).isDigit = true := by
  interval_cases d <;> decide

theorem digitChar_toNat (d : Nat) (h : d < 10) :
    (digitChar d).toNat - '0'.toNat = d := by
  interval_cases d <;> decide

theorem digitChar_ne_plus (d : Nat) (h : d < 10) : digitChar d ≠ '+' := by
  interval_cases d <;> decide

theorem toDecimalAux_ne_nil (fuel n : Nat) (h : n < fuel) :
    toDecimalAux fuel n ≠ [] := by
  induction fuel generalizing n with
  | zero => omega
  | succ f ih =>
      rw [toDecimalAux]
      split <;> simp

theorem toDecimal_ne_nil (n : Nat) : toDecimal n ≠ [] :=
  toDecimalAux_ne_nil (n + 1) n (by omega)

theorem toDecimalAux_all_digits (fuel n : Nat) (h : n < fuel) :
    ∀ c ∈ toDecimalAux fuel n, c.isDigit = true := by
  induction fuel generalizing n with
  | zero => omega
  | succ f ih =>
      rw [toDecimalAux]
      split
      · intro c hc
        simp only [List.mem_singleton] at hc
        subst hc
        exact digitChar_isDigit n (by omega)
      · intro c hc
        rcases List.mem_append.1 hc with hl | hr
        · exact ih (n / 10) (by omega) c hl
        · simp only [List.mem_singleton] at hr
          subst hr
          exact digitChar_isDigit (n % 10) (Nat.mod_lt n (by omega))

theorem toDecimal_all_digits (n : Nat) :
    ∀ c ∈ toDecimal n, c.isDigit = true :=
  toDecimalAux_all_digits (n + 1) n (by omega)

theorem toDecimalAux_head_ne_plus (fuel n : Nat) (h : n < fuel) :
    ∀ l, toDecimalAux fuel n = '+' :: l → False := by
  induction fuel generalizing n with
  | zero => omega
  | succ f ih =>
      intro l hl
      rw [toDecimalAux] at hl
      split at hl
      · simp only [List.cons.injEq] at hl
        exact digitChar_ne_plus n (by omega) hl.1
      · rcases hd : toDecimalAux f (n / 10) with _ | ⟨c, rest⟩
        · exact toDecimalAux_ne_nil f (n / 10) (by omega) hd
        · rw [hd] at hl
          simp only [List.cons_append, List.cons.injEq] at hl
          exact ih (n / 10) (by omega) rest (by rw [hd, hl.1])

theorem toDecimal_head_ne_plus (n : Nat) :
    ∀ l, toDecimal n = '+' :: l → False :=
  toDecimalAux_head_ne_plus (n + 1) n (by omega)

/-- Accumulator step of the digit fold in `parseU64`. -/
theorem foldl_digits_append (l : List Char) (c : Char) (a : Nat) :
    List.foldl (fun acc ch => acc * 10 + (ch.toNat - '0'.toNat)) a
        (l ++ [c]) =
      (List.foldl (fun acc ch => acc * 10 + (ch.toNat - '0'.toNat)) a l) *
          10 + (c.toNat - '0'.toNat) := by
  rw [List.foldl_append]
  rfl

theorem foldl_toDecimalAux (fuel n : Nat) (h : n < fuel) :
    List.foldl (fun acc ch => acc * 10 + (ch.toNat - '0'.toNat)) 0
      (toDecimalAux fuel n) = n := by
  induction fuel generalizing n with
  | zero => omega
  | succ f ih =>
      rw [toDecimalAux]
      split
      · simpa using digitChar_toNat n (by omega)
      · rw [foldl_digits_append, ih (n / 10) (by omega),
          digitChar_toNat (n % 10) (Nat.mod_lt n (by omega))]
        omega

theorem foldl_toDecimal (n : Nat) :
    List.foldl (fun acc ch => acc * 10 + (ch.toNat - '0'.toNat)) 0
      (toDecimal n) = n :=
  foldl_toDecimalAux (n + 1) n (by omega)

/-- Parsing a formatted `u64` key recovers the id. -/
theorem parseU64_natToString (n : Nat) (h : n < 2 ^ 64) :
    parseU64 (natToString n) = some n := by
  show parseU64Chars (toDecimal n) = some n
  have hplus : (match toDecimal n with
      | '+' :: rest => rest
      | l => l) = toDecimal n := by
    rcases hd : toDecimal n with _ | ⟨c, rest⟩
    · exact absurd hd (toDecimal_ne_nil n)
    · by_cases hc : c = '+'
      · exact absurd (hc ▸ hd) (fun hh => toDecimal_head_ne_plus n rest hh)
      · cases c <;> simp_all
  have hne := toDecimal_ne_nil n
  have hdg := toDecimal_all_digits n
  have hfold := foldl_toDecimal n
  have hh : n < 18446744073709551616 := by omega
  simp only [parseU64Chars, hplus]
  rw [if_neg, if_pos]
  · rw [hfold]
  · rw [hfold]; exact hh
  · have hall : (toDecimal n).all Char.isDigit = true :=
      List.all_eq_true.2 hdg
    simp [List.isEmpty_iff, hne, hall]

theorem bucketModify_ok {P : StorageItem → Prop} {b : Bucket} {k : String}
    {f : StorageItem → StorageItem} (hb : BucketOk P b)
    (hf : ∀ it, P it → P (f it)) : BucketOk P (bucketModify b k f) := by
  induction b with
  | nil => exact hb
  | cons p rest ih =>
      intro q hq
      rw [bucketModify] at hq
      split at hq
      · rcases List.mem_cons.1 hq with hh | hh
        · subst hh; exact hf _ (hb p (by simp))
        · exact hb q (by simp [hh])
      · rcases List.mem_cons.1 hq with hh | hh
        · subst hh; exact hb p (by simp)
        · exact ih (fun q hq => hb q (by simp [hq])) q hh

theorem bucketInsert_ok {P : StorageItem → Prop} {b : Bucket} {k : String}
    {it : StorageItem} (hb : BucketOk P b) (hit : P it) :
    BucketOk P (bucketInsert b k it) := by
  induction b with
  | nil => intro q hq; simp [bucketInsert] at hq; rw [hq]; exact hit
  | cons p rest ih =>
      intro q hq
      rw [bucketInsert] at hq
      split at hq
      · rcases List.mem_cons.1 hq with hh | hh
        · subst hh; exact hit
        · exact hb q (by simp [hh])
      · rcases List.mem_cons.1 hq with hh | hh
        · subst hh; exact hb p (by simp)
        · exact ih (fun q hq => hb q (by simp [hq])) q hh

theorem bucketRemove_rest_ok {P : StorageItem → Prop} {b : Bucket}
    {k : String} (hb : BucketOk P b) :
    BucketOk P (bucketRemove b k).2 := by
  induction b with
  | nil => exact hb
  | cons p rest ih =>
      intro q hq
      rw [bucketRemove] at hq
      split at hq
      · exact hb q (by simp [hq])
      · rcases List.mem_cons.1 hq with hh | hh
        · subst hh; exact hb p (by simp)
        · exact ih (fun q hq => hb q (by simp [hq])) q hh

theorem bucketRemove_found_ok {P : StorageItem → Prop} {b : Bucket}
    {k : String} {it : StorageItem} (hb : BucketOk P b)
    (hfound : (bucketRemove b k).1 = some it) : P it := by
  induction b with
  | nil => simp [bucketRemove] at hfound
  | cons p rest ih =>
      rw [bucketRemove] at hfound
      split at hfound
      · simp only [Option.some.injEq] at hfound
        rw [← hfound]; exact hb p (by simp)
      · exact ih (fun q hq => hb q (by simp [hq])) hfound

theorem applyToIds_ok {P : StorageItem → Prop}
    {f : StorageItem → StorageItem} (hf : ∀ it, P it → P (f it))
    (ids : List Nat) {b : Bucket} (hb : BucketOk P b) :
    BucketOk P (applyToIds f ids b) := by
  induction ids generalizing b with
  | nil => exact hb
  | cons id rest ih =>
      exact ih (bucketModify_ok hb hf)

theorem save_item_to_archive_ok {P : StorageItem → Prop} {archive : Bucket}
    {item : StorageItem} (ha : BucketOk P archive)
    (hsetId : ∀ it n, P it → P (it.setId n)) (hitem : P item) :
    BucketOk P (save_item_to_archive archive item) :=
  bucketInsert_ok ha (hsetId item _ hitem)

theorem deleteFold_ok {P : StorageItem → Prop}
    (hsetId : ∀ it n, P it → P (it.setId n)) (ids : List Nat)
    {active archive : Bucket} (ha : BucketOk P active)
    (hr : BucketOk P archive) :
    BucketOk P (deleteFold ids active archive).1 ∧
      BucketOk P (deleteFold ids active archive).2 := by
  induction ids generalizing active archive with
  | nil => exact ⟨ha, hr⟩
  | cons id rest ih =>
      rw [deleteFold]
      rcases hfound : (bucketRemove active (natToString id)).1 with _ | it
      · exact ih (bucketRemove_rest_ok ha) hr
      · exact ih (bucketRemove_rest_ok ha)
          (save_item_to_archive_ok hr hsetId
            (bucketRemove_found_ok ha hfound))

theorem restoreFold_ok {P : StorageItem → Prop}
    (hsetId : ∀ it n, P it → P (it.setId n)) (ids : List Nat)
    {archive active : Bucket} (hr : BucketOk P archive)
    (ha : BucketOk P active) :
    BucketOk P (restoreFold ids archive active).1 ∧
      BucketOk P (restoreFold ids archive active).2 := by
  induction ids generalizing archive active with
  | nil => exact ⟨hr, ha⟩
  | cons id rest ih =>
      rw [restoreFold]
      rcases hfound : (bucketRemove archive (natToString id)).1 with _ | it
      · exact ih (bucketRemove_rest_ok hr) ha
      · exact ih (bucketRemove_rest_ok hr)
          (bucketInsert_ok ha (hsetId it _
            (bucketRemove_found_ok hr hfound)))

theorem except_error_ne_ok {ε α : Type} {e : ε} {b : α}
    (h : (Except.error e : Except ε α) = .ok b) : False := by
  cases h

theorem except_bind_eq_ok {ε α β : Type} {x : Except ε α}
    {f : α → Except ε β} {b : β} (h : (x >>= f) = .ok b) :
    ∃ a, x = .ok a ∧ f a = .ok b := by
  cases x with
  | ok a => rw [except_bind_ok] at h; exact ⟨a, rfl, h⟩
  | error e => rw [show ((Except.error e : Except ε α) >>= f) =
      .error e from rfl] at h; exact absurd h except_error_ne_ok

theorem POk_check (it : StorageItem) : POk (checkTransform it) := by
  cases it <;> simp [checkTransform, POk, ItemOk]

theorem POk_begin (it : StorageItem) : POk (beginTransform it) := by
  cases it <;> simp [beginTransform, POk, ItemOk]

theorem POk_set_starred (it : StorageItem) (b : Bool) (h : POk it) :
    POk (it.set_starred b) := by
  cases it <;> simpa [StorageItem.set_starred, POk, ItemOk] using h

theorem POk_set_description (it : StorageItem) (d : String) (h : POk it) :
    POk (it.set_description d) := by
  cases it <;> simpa [StorageItem.set_description, POk, ItemOk] using h

theorem POk_set_boards (it : StorageItem) (bs : List String) (h : POk it) :
    POk (it.set_boards bs) := by
  cases it <;> simpa [StorageItem.set_boards, POk, ItemOk] using h

theorem POk_setId (it : StorageItem) (n : Nat) (h : POk it) :
    POk (it.setId n) := by
  cases it <;> simpa [StorageItem.setId, POk, ItemOk] using h

theorem POk_setPriority (t : Task) (p : Nat)
    (h : POk (.task t)) : POk (.task { t with priority := p }) := by
  simpa [POk, ItemOk] using h

theorem POk_taskNew (date : String) (ts : Int) (id : Nat) (desc : String)
    (bs : List String) (p : Nat) :
    POk (.task (taskNew date ts id desc bs p)) := by
  simp [POk, ItemOk, taskNew]

theorem POk_noteNew (date : String) (ts : Int) (id : Nat) (desc : String)
    (bs : List String) : POk (.note (noteNew date ts id desc bs)) := by
  simp [POk, ItemOk, noteNew]

theorem runOp_POk (op : Op) (s : StoreState) (hs : StateOk POk s) :
    ∀ s2, runOp op s = .ok s2 → StateOk POk s2 := by
  obtain ⟨ha, hr⟩ := hs
  intro s2 h2
  cases op with
  | createTask date ts boards desc p =>
      rw [runOp, create_task_direct] at h2
      split at h2
      · exact absurd h2 except_error_ne_ok
      · cases h2
        exact ⟨bucketInsert_ok ha (POk_taskNew date ts _ desc boards p), hr⟩
  | createNote date ts boards desc =>
      rw [runOp, create_note_direct] at h2
      split at h2
      · exact absurd h2 except_error_ne_ok
      · cases h2
        exact ⟨bucketInsert_ok ha (POk_noteNew date ts _ desc boards), hr⟩
  | check ids =>
      rw [runOp, check_tasks] at h2
      obtain ⟨v, _, h2⟩ := except_bind_eq_ok h2
      cases h2
      exact ⟨applyToIds_ok (fun it _ => POk_check it) v ha, hr⟩
  | begin ids =>
      rw [runOp, begin_tasks] at h2
      obtain ⟨v, _, h2⟩ := except_bind_eq_ok h2
      cases h2
      exact ⟨applyToIds_ok (fun it _ => POk_begin it) v ha, hr⟩
  | star ids =>
      rw [runOp, star_items] at h2
      obtain ⟨v, _, h2⟩ := except_bind_eq_ok h2
      cases h2
      exact ⟨applyToIds_ok (fun it h => POk_set_starred it _ h) v ha, hr⟩
  | priority id p =>
      rw [runOp, update_priority_silent] at h2
      obtain ⟨v, _, h2⟩ := except_bind_eq_ok h2
      cases h2
      refine ⟨bucketModify_ok ha (fun it h => ?_), hr⟩
      cases it with
      | task t => exact POk_setPriority t p h
      | note n => exact h
  | priorityCli input =>
      rw [runOp, update_priority] at h2
      split at h2
      · exact absurd h2 except_error_ne_ok
      · split at h2
        · exact absurd h2 except_error_ne_ok
        · split at h2
          · exact absurd h2 except_error_ne_ok
          · obtain ⟨v, _, h2⟩ := except_bind_eq_ok h2
            cases h2
            refine ⟨bucketModify_ok ha (fun it h => ?_), hr⟩
            cases it with
            | task t => exact POk_setPriority t _ h
            | note n => exact h
        · exact absurd h2 except_error_ne_ok
  | editDescription id desc =>
      rw [runOp, edit_description_silent] at h2
      obtain ⟨v, _, h2⟩ := except_bind_eq_ok h2
      cases h2
      exact ⟨bucketModify_ok ha
        (fun it h => POk_set_description it desc h), hr⟩
  | moveSilent id boards =>
      rw [runOp, move_boards_silent] at h2
      obtain ⟨v, _, h2⟩ := except_bind_eq_ok h2
      cases h2
      exact ⟨bucketModify_ok ha (fun it h => POk_set_boards it _ h), hr⟩
  | moveCli input =>
      rw [runOp, move_boards] at h2
      split at h2
      · exact absurd h2 except_error_ne_ok
      · split at h2
        · exact absurd h2 except_error_ne_ok
        · obtain ⟨v, _, h2⟩ := except_bind_eq_ok h2
          dsimp only at h2
          split at h2
          · exact absurd h2 except_error_ne_ok
          · cases h2
            exact ⟨bucketModify_ok ha
              (fun it h => POk_set_boards it _ h), hr⟩
      · exact absurd h2 except_error_ne_ok
  | deleteOp ids =>
      rw [runOp, delete_items] at h2
      obtain ⟨v, _, h2⟩ := except_bind_eq_ok h2
      cases h2
      exact ⟨(deleteFold_ok POk_setId v ha hr).1,
        (deleteFold_ok POk_setId v ha hr).2⟩
  | restoreOp ids =>
      rw [runOp, restore_items] at h2
      obtain ⟨v, _, h2⟩ := except_bind_eq_ok h2
      cases h2
      exact ⟨(restoreFold_ok POk_setId v hr ha).2,
        (restoreFold_ok POk_setId v hr ha).1⟩
  | clearOp =>
      rw [runOp] at h2
      cases h2
      rw [clear]
      split
      · exact ⟨ha, hr⟩
      · exact ⟨(deleteFold_ok POk_setId _ ha hr).1,
          (deleteFold_ok POk_setId _ ha hr).2⟩

theorem applyOp_POk (op : Op) (s : StoreState) (hs : StateOk POk s) :
    StateOk POk (applyOp op s) := by
  rw [applyOp]
  split
  · exact runOp_POk op s hs _ (by assumption)
  · exact hs

theorem runOps_POk (ops : List Op) (s : StoreState) (hs : StateOk POk s) :
    StateOk POk (runOps ops s) := by
  induction ops generalizing s with
  | nil => exact hs
  | cons op rest ih => exact ih (applyOp op s) (applyOp_POk op s hs)

theorem PBoards_check (it : StorageItem) (h : PBoards it) :
    PBoards (checkTransform it) := by
  cases it <;> simpa [checkTransform, PBoards, StorageItem.boards] using h

theorem PBoards_begin (it : StorageItem) (h : PBoards it) :
    PBoards (beginTransform it) := by
  cases it <;> simpa [beginTransform, PBoards, StorageItem.boards] using h

theorem PBoards_set_starred (it : StorageItem) (b : Bool) (h : PBoards it) :
    PBoards (it.set_starred b) := by
  cases it <;>
    simpa [StorageItem.set_starred, PBoards, StorageItem.boards] using h

theorem PBoards_set_description (it : StorageItem) (d : String)
    (h : PBoards it) : PBoards (it.set_description d) := by
  cases it <;>
    simpa [StorageItem.set_description, PBoards, StorageItem.boards] using h

theorem PBoards_setId (it : StorageItem) (n : Nat) (h : PBoards it) :
    PBoards (it.setId n) := by
  cases it <;> simpa [StorageItem.setId, PBoards, StorageItem.boards] using h

theorem PBoards_setPriority (t : Task) (p : Nat)
    (h : PBoards (.task t)) : PBoards (.task { t with priority := p }) := by
  simpa [PBoards, StorageItem.boards] using h

theorem PBoards_set_boards (it : StorageItem) (bs : List String)
    (hbs : bs ≠ []) : PBoards (it.set_boards bs) := by
  cases it <;> simpa [StorageItem.set_boards, PBoards, StorageItem.boards]
    using hbs

theorem PBoards_taskNew (date : String) (ts : Int) (id : Nat)
    (desc : String) (bs : List String) (p : Nat) (hbs : bs ≠ []) :
    PBoards (.task (taskNew date ts id desc bs p)) := by
  simpa [PBoards, StorageItem.boards, taskNew] using hbs

theorem PBoards_noteNew (date : String) (ts : Int) (id : Nat)
    (desc : String) (bs : List String) (hbs : bs ≠ []) :
    PBoards (.note (noteNew date ts id desc bs)) := by
  simpa [PBoards, StorageItem.boards, noteNew] using hbs

theorem runOp_PBoards (op : Op) (s : StoreState) (hsafe : OpBoardsSafe op)
    (hs : StateOk PBoards s) :
    ∀ s2, runOp op s = .ok s2 → StateOk PBoards s2 := by
  obtain ⟨ha, hr⟩ := hs
  intro s2 h2
  cases op with
  | createTask date ts boards desc p =>
      rw [runOp, create_task_direct] at h2
      split at h2
      · exact absurd h2 except_error_ne_ok
      · cases h2
        exact ⟨bucketInsert_ok ha (PBoards_taskNew date ts _ desc boards p
          hsafe), hr⟩
  | createNote date ts boards desc =>
      rw [runOp, create_note_direct] at h2
      split at h2
      · exact absurd h2 except_error_ne_ok
      · cases h2
        exact ⟨bucketInsert_ok ha (PBoards_noteNew date ts _ desc boards
          hsafe), hr⟩
  | check ids =>
      rw [runOp, check_tasks] at h2
      obtain ⟨v, _, h2⟩ := except_bind_eq_ok h2
      cases h2
      exact ⟨applyToIds_ok (fun it h => PBoards_check it h) v ha, hr⟩
  | begin ids =>
      rw [runOp, begin_tasks] at h2
      obtain ⟨v, _, h2⟩ := except_bind_eq_ok h2
      cases h2
      exact ⟨applyToIds_ok (fun it h => PBoards_begin it h) v ha, hr⟩
  | star ids =>
      rw [runOp, star_items] at h2
      obtain ⟨v, _, h2⟩ := except_bind_eq_ok h2
      cases h2
      exact ⟨applyToIds_ok (fun it h => PBoards_set_starred it _ h) v ha,
        hr⟩
  | priority id p =>
      rw [runOp, update_priority_silent] at h2
      obtain ⟨v, _, h2⟩ := except_bind_eq_ok h2
      cases h2
      refine ⟨bucketModify_ok ha (fun it h => ?_), hr⟩
      cases it with
      | task t => exact PBoards_setPriority t p h
      | note n => exact h
  | priorityCli input =>
      rw [runOp, update_priority] at h2
      split at h2
      · exact absurd h2 except_error_ne_ok
      · split at h2
        · exact absurd h2 except_error_ne_ok
        · split at h2
          · exact absurd h2 except_error_ne_ok
          · obtain ⟨v, _, h2⟩ := except_bind_eq_ok h2
            cases h2
            refine ⟨bucketModify_ok ha (fun it h => ?_), hr⟩
            cases it with
            | task t => exact PBoards_setPriority t _ h
            | note n => exact h
        · exact absurd h2 except_error_ne_ok
  | editDescription id desc =>
      rw [runOp, edit_description_silent] at h2
      obtain ⟨v, _, h2⟩ := except_bind_eq_ok h2
      cases h2
      exact ⟨bucketModify_ok ha
        (fun it h => PBoards_set_description it desc h), hr⟩
  | moveSilent id boards =>
      rw [runOp, move_boards_silent] at h2
      obtain ⟨v, _, h2⟩ := except_bind_eq_ok h2
      cases h2
      refine ⟨bucketModify_ok ha (fun it _ => PBoards_set_boards it _
        (fun hmap => hsafe ?_)), hr⟩
      exact List.map_eq_nil_iff.1 hmap
  | moveCli input =>
      rw [runOp, move_boards] at h2
      split at h2
      · exact absurd h2 except_error_ne_ok
      · split at h2
        · exact absurd h2 except_error_ne_ok
        · obtain ⟨v, _, h2⟩ := except_bind_eq_ok h2
          dsimp only at h2
          split at h2
          · exact absurd h2 except_error_ne_ok
          · cases h2
            refine ⟨bucketModify_ok ha (fun it _ =>
              PBoards_set_boards it _ (fun hnil => ?_)), hr⟩
            simp_all
      · exact absurd h2 except_error_ne_ok
  | deleteOp ids =>
      rw [runOp, delete_items] at h2
      obtain ⟨v, _, h2⟩ := except_bind_eq_ok h2
      cases h2
      exact ⟨(deleteFold_ok PBoards_setId v ha hr).1,
        (deleteFold_ok PBoards_setId v ha hr).2⟩
  | restoreOp ids =>
      rw [runOp, restore_items] at h2
      obtain ⟨v, _, h2⟩ := except_bind_eq_ok h2
      cases h2
      exact ⟨(restoreFold_ok PBoards_setId v hr ha).2,
        (restoreFold_ok PBoards_setId v hr ha).1⟩
  | clearOp =>
      rw [runOp] at h2
      cases h2
      rw [clear]
      split
      · exact ⟨ha, hr⟩
      · exact ⟨(deleteFold_ok PBoards_setId _ ha hr).1,
          (deleteFold_ok PBoards_setId _ ha hr).2⟩

theorem applyOp_PBoards (op : Op) (s : StoreState) (hsafe : OpBoardsSafe op)
    (hs : StateOk PBoards s) : StateOk PBoards (applyOp op s) := by
  rw [applyOp]
  split
  · exact runOp_PBoards op s hsafe hs _ (by assumption)
  · exact hs

theorem runOps_PBoards (ops : List Op) (s : StoreState)
    (hsafe : ∀ op ∈ ops, OpBoardsSafe op) (hs : StateOk PBoards s) :
    StateOk PBoards (runOps ops s) := by
  induction ops generalizing s with
  | nil => exact hs
  | cons op rest ih =>
      exact ih (applyOp op s) (fun o ho => hsafe o (by simp [ho]))
        (applyOp_PBoards op s (hsafe op (by simp)) hs)

/-! ## Board-name normalization lemmas -/

theorem char_toNat_inj {c d : Char} (h : c.toNat = d.toNat) : c = d :=
  Char.ext_iff.2 (UInt32.ext h)

theorem rustIsWhitespace_eq_false {c : Char} (h1 : 33 ≤ c.toNat)
    (h2 : c.toNat ≠ 133) (h3 : c.toNat ≠ 160) :
    rustIsWhitespace c = false := by
  have hs : ∀ d : Char, c.toNat ≠ d.toNat → ¬(c = d) := by
    intro d hne he
    exact hne (by rw [he])
  simp only [rustIsWhitespace, Bool.or_eq_false_iff, decide_eq_false_iff_not]
  refine ⟨⟨⟨⟨⟨⟨⟨?_, ?_⟩, ?_⟩, ?_⟩, ?_⟩, ?_⟩, ?_⟩, ?_⟩
  · exact hs ' ' (by have : (' ').toNat = 32 := rfl; omega)
  · exact hs '\t' (by have : ('\t').toNat = 9 := rfl; omega)
  · exact hs '\n' (by have : ('\n').toNat = 10 := rfl; omega)
  · omega
  · omega
  · exact hs '\r' (by have : ('\r').toNat = 13 := rfl; omega)
  · omega
  · omega

theorem asciiLower_cases {c d : Char} (h : asciiLower c = d) :
    c = d ∨ (65 ≤ c.toNat ∧ c.toNat ≤ 90 ∧ d.toNat = c.toNat + 32) := by
  rw [asciiLower] at h
  split at h
  · rename_i hc
    obtain ⟨hc1, hc2⟩ := hc
    rw [Char.le_def] at hc1 hc2
    right
    have hv1 : (65 : Nat) ≤ c.toNat := hc1
    have hv2 : c.toNat ≤ 90 := hc2
    refine ⟨hv1, hv2, ?_⟩
    rw [← h]
    unfold Char.ofNat
    split
    · rfl
    · rename_i hv
      exact absurd (Or.inl (by omega)) hv
  · exact Or.inl h

/-- A character whose ASCII lowering is a lowercase letter is itself a
letter: neither whitespace nor `@`. -/
theorem variant_facts {c d : Char} (h : asciiLower c = d)
    (h1 : 97 ≤ d.toNat) (h2 : d.toNat ≤ 122) :
    rustIsWhitespace c = false ∧ ¬(c = '@') := by
  rcases asciiLower_cases h with hh | ⟨ha, hb, hc⟩
  · subst hh
    refine ⟨rustIsWhitespace_eq_false (by omega) (by omega) (by omega), ?_⟩
    intro he
    have : c.toNat = 64 := by rw [he]; rfl
    omega
  · refine ⟨rustIsWhitespace_eq_false (by omega) (by omega) (by omega), ?_⟩
    intro he
    have : c.toNat = 64 := by rw [he]; rfl
    omega

theorem dropWhile_head {p : Char → Bool} {c : Char} (l : List Char)
    (h : p c = false) : List.dropWhile p (c :: l) = c :: l := by
  simp [List.dropWhile, h]

theorem dropTrailing_last {p : Char → Bool} (l : List Char) {c : Char}
    (h : p c = false) : dropTrailing p (l ++ [c]) = l ++ [c] := by
  simp [dropTrailing, List.reverse_append, List.dropWhile, h]

/-- Normalization of a string whose first character is a non-`@`
non-whitespace and whose last character is non-whitespace, when the string
matches one of the two default-board aliases: both the bare string and its
`@`-prefixed form normalize to the default board. -/
theorem normalize_alias_core (c cl : Char) (mid : List Char)
    (hc : rustIsWhitespace c = false) (hcl : rustIsWhitespace cl = false)
    (hat : ¬(c = '@'))
    (hcond : eqIgnoreAsciiCase ⟨c :: (mid ++ [cl])⟩ "myboard" = true ∨
      eqIgnoreAsciiCase ⟨c :: (mid ++ [cl])⟩ "my board" = true) :
    normalize_board_name ⟨c :: (mid ++ [cl])⟩ = DEFAULT_BOARD ∧
      normalize_board_name ("@" ++ ⟨c :: (mid ++ [cl])⟩) = DEFAULT_BOARD := by
  have htrim : rustTrim ⟨c :: (mid ++ [cl])⟩ = ⟨c :: (mid ++ [cl])⟩ := by
    show (⟨dropTrailing rustIsWhitespace
      (List.dropWhile rustIsWhitespace (c :: (mid ++ [cl])))⟩ : String) = _
    rw [dropWhile_head _ hc]
    show (⟨dropTrailing rustIsWhitespace ((c :: mid) ++ [cl])⟩ : String) = _
    rw [dropTrailing_last _ hcl]
    rfl
  have hstrip : trimStartMatchesAt ⟨c :: (mid ++ [cl])⟩ =
      ⟨c :: (mid ++ [cl])⟩ := by
    show (⟨List.dropWhile (fun x => decide (x = '@'))
      (c :: (mid ++ [cl]))⟩ : String) = _
    rw [dropWhile_head _ (by simp [hat])]
  have hempty : (String.mk (c :: (mid ++ [cl]))).isEmpty = false := by
    rw [Bool.eq_false_iff]
    intro hh
    rw [String.isEmpty_iff] at hh
    have hd := congrArg String.data hh
    simp at hd
  have hcondtrue : ((⟨c :: (mid ++ [cl])⟩ : String).isEmpty ||
      eqIgnoreAsciiCase ⟨c :: (mid ++ [cl])⟩ "myboard" ||
      eqIgnoreAsciiCase ⟨c :: (mid ++ [cl])⟩ "my board") = true := by
    rcases hcond with hcond | hcond <;> simp [hcond]
  have hone : normalize_board_name ⟨c :: (mid ++ [cl])⟩ = DEFAULT_BOARD := by
    show (if ((rustTrim (trimStartMatchesAt
        (rustTrim ⟨c :: (mid ++ [cl])⟩))).isEmpty ||
        eqIgnoreAsciiCase (rustTrim (trimStartMatchesAt
          (rustTrim ⟨c :: (mid ++ [cl])⟩))) "myboard" ||
        eqIgnoreAsciiCase (rustTrim (trimStartMatchesAt
          (rustTrim ⟨c :: (mid ++ [cl])⟩))) "my board") = true then
      DEFAULT_BOARD else
        rustTrim (trimStartMatchesAt (rustTrim ⟨c :: (mid ++ [cl])⟩))) =
      DEFAULT_BOARD
    rw [htrim, hstrip, htrim, if_pos hcondtrue]
  refine ⟨hone, ?_⟩
  have hdata : ("@" ++ (⟨c :: (mid ++ [cl])⟩ : String)) =
      ⟨'@' :: (c :: (mid ++ [cl]))⟩ := rfl
  have htrim2 : rustTrim ⟨'@' :: (c :: (mid ++ [cl]))⟩ =
      ⟨'@' :: (c :: (mid ++ [cl]))⟩ := by
    show (⟨dropTrailing rustIsWhitespace (List.dropWhile rustIsWhitespace
      ('@' :: (c :: (mid ++ [cl]))))⟩ : String) = _
    rw [dropWhile_head _ (by decide)]
    show (⟨dropTrailing rustIsWhitespace
      (('@' :: c :: mid) ++ [cl])⟩ : String) = _
    rw [dropTrailing_last _ hcl]
    rfl
  have hstrip2 : trimStartMatchesAt ⟨'@' :: (c :: (mid ++ [cl]))⟩ =
      ⟨c :: (mid ++ [cl])⟩ := by
    show (⟨List.dropWhile (fun x => decide (x = '@'))
      ('@' :: (c :: (mid ++ [cl])))⟩ : String) = _
    rw [show List.dropWhile (fun x => decide (x = '@'))
        ('@' :: (c :: (mid ++ [cl]))) =
      List.dropWhile (fun x => decide (x = '@')) (c :: (mid ++ [cl]))
      from by simp [List.dropWhile]]
    rw [dropWhile_head _ (by simp [hat])]
  rw [hdata]
  show (if ((rustTrim (trimStartMatchesAt
      (rustTrim ⟨'@' :: (c :: (mid ++ [cl]))⟩))).isEmpty ||
      eqIgnoreAsciiCase (rustTrim (trimStartMatchesAt
        (rustTrim ⟨'@' :: (c :: (mid ++ [cl]))⟩))) "myboard" ||
      eqIgnoreAsciiCase (rustTrim (trimStartMatchesAt
        (rustTrim ⟨'@' :: (c :: (mid ++ [cl]))⟩))) "my board") = true then
    DEFAULT_BOARD else
      rustTrim (trimStartMatchesAt (rustTrim ⟨'@' :: (c :: (mid ++ [cl]))⟩)))
    = DEFAULT_BOARD
  rw [htrim2, hstrip2, htrim, if_pos hcondtrue]

/-- Every ASCII-case respelling of `myboard` or `my board`, bare or with a
leading `@`, normalizes to the default board. -/
theorem normalize_board_alias (w : String)
    (hw : eqIgnoreAsciiCase w "myboard" = true ∨
      eqIgnoreAsciiCase w "my board" = true) :
    normalize_board_name w = DEFAULT_BOARD ∧
      normalize_board_name ("@" ++ w) = DEFAULT_BOARD := by
  obtain ⟨l⟩ := w
  have hw0 := hw
  rcases hw with hw | hw
  · rw [show eqIgnoreAsciiCase ⟨l⟩ "myboard" =
      eqIgnoreAsciiCaseList l ['m', 'y', 'b', 'o', 'a', 'r', 'd']
      from rfl] at hw
    rcases l with _ | ⟨c1, _ | ⟨c2, _ | ⟨c3, _ | ⟨c4, _ | ⟨c5, _ |
      ⟨c6, _ | ⟨c7, _ | ⟨c8, rest⟩⟩⟩⟩⟩⟩⟩⟩ <;>
      simp [eqIgnoreAsciiCaseList] at hw
    obtain ⟨h1, h2, h3, h4, h5, h6, h7⟩ := hw
    have f1 := variant_facts h1 (by decide) (by decide)
    have f7 := variant_facts h7 (by decide) (by decide)
    exact normalize_alias_core c1 c7 [c2, c3, c4, c5, c6] f1.1 f7.1 f1.2 hw0
  · rw [show eqIgnoreAsciiCase ⟨l⟩ "my board" =
      eqIgnoreAsciiCaseList l ['m', 'y', ' ', 'b', 'o', 'a', 'r', 'd']
      from rfl] at hw
    rcases l with _ | ⟨c1, _ | ⟨c2, _ | ⟨c3, _ | ⟨c4, _ | ⟨c5, _ |
      ⟨c6, _ | ⟨c7, _ | ⟨c8, _ | ⟨c9, rest⟩⟩⟩⟩⟩⟩⟩⟩⟩ <;>
      simp [eqIgnoreAsciiCaseList] at hw
    obtain ⟨h1, h2, h3, h4, h5, h6, h7, h8⟩ := hw
    have f1 := variant_facts h1 (by decide) (by decide)
    have f8 := variant_facts h8 (by decide) (by decide)
    exact normalize_alias_core c1 c8 [c2, c3, c4, c5, c6, c7] f1.1 f8.1
      f1.2 hw0

theorem bucketRemove_fst (b : Bucket) (k : String) :
    (bucketRemove b k).1 = bucketGet b k := by
  induction b with
  | nil => rfl
  | cons p rest ih =>
      rw [bucketRemove, bucketGet]
      split <;> simp [ih]

theorem mem_keys_of_get {b : Bucket} {k : String} {it : StorageItem}
    (h : bucketGet b k = some it) : k ∈ b.map Prod.fst := by
  induction b with
  | nil => cases h
  | cons p rest ih =>
      rw [bucketGet] at h
      split at h
      · rename_i hk
        simp [← hk]
      · simp [ih h]

theorem bucketGet_eq_none_of_not_mem {b : Bucket} {k : String}
    (h : k ∉ b.map Prod.fst) : bucketGet b k = none := by
  induction b with
  | nil => rfl
  | cons p rest ih =>
      rw [bucketGet]
      split
      · rename_i hk
        exact absurd (by simp [← hk]) h
      · exact ih (fun hh => h (by simp [hh]))

theorem bucketGet_remove_none {b : Bucket} {k : String}
    (hnd : (b.map Prod.fst).Nodup) :
    bucketGet (bucketRemove b k).2 k = none := by
  induction b with
  | nil => rfl
  | cons p rest ih =>
      rw [List.map_cons, List.nodup_cons] at hnd
      rw [bucketRemove]
      split
      · rename_i hk
        exact bucketGet_eq_none_of_not_mem (by rw [← hk]; exact hnd.1)
      · rw [show ((bucketRemove rest k).1,
          (p.1, p.2) :: (bucketRemove rest k).2).2 =
            (p.1, p.2) :: (bucketRemove rest k).2 from rfl]
        rw [bucketGet]
        split
        · rename_i hk2
          exact absurd hk2 (by assumption)
        · exact ih hnd.2

theorem bucketGet_insert_self (b : Bucket) (k : String) (it : StorageItem) :
    bucketGet (bucketInsert b k it) k = some it := by
  induction b with
  | nil => simp [bucketInsert, bucketGet]
  | cons p rest ih =>
      rw [bucketInsert]
      split
      · rw [bucketGet]
        simp
      · rw [bucketGet]
        split
        · rename_i hk
          exact absurd hk (by assumption)
        · exact ih

theorem le_foldl_max (l : List Nat) (a : Nat) : a ≤ l.foldl max a := by
  induction l generalizing a with
  | nil => exact Nat.le_refl a
  | cons x rest ih => exact Nat.le_trans (Nat.le_max_left a x) (ih (max a x))

theorem mem_le_foldl_max {l : List Nat} {x : Nat} (hx : x ∈ l) (a : Nat) :
    x ≤ l.foldl max a := by
  induction l generalizing a with
  | nil => cases hx
  | cons y rest ih =>
      rcases List.mem_cons.1 hx with hh | hh
      · subst hh
        exact Nat.le_trans (Nat.le_max_right a x) (le_foldl_max rest _)
      · exact ih hh (max a y)

theorem lt_generate_id {b : Bucket} {k : Nat} (hk : k ∈ get_ids b) :
    k < generate_id b := by
  rw [generate_id]
  have := mem_le_foldl_max (l := get_ids b) hk 0
  rw [get_ids] at this
  omega

theorem generate_id_empty {b : Bucket} (h : get_ids b = []) :
    generate_id b = 1 := by
  rw [generate_id, show (b.map Prod.fst).filterMap parseU64 = get_ids b
    from rfl, h]
  rfl

theorem mem_get_ids {b : Bucket} {id : Nat} {it : StorageItem}
    (hid : id < 2 ^ 64) (h : bucketGet b (natToString id) = some it) :
    id ∈ get_ids b := by
  rw [get_ids, List.mem_filterMap]
  exact ⟨natToString id, mem_keys_of_get h, parseU64_natToString id hid⟩

theorem generate_id_fresh {b : Bucket} (hlt : generate_id b < 2 ^ 64) :
    natToString (generate_id b) ∉ b.map Prod.fst := by
  intro hmem
  have hin : generate_id b ∈ get_ids b := by
    rw [get_ids, List.mem_filterMap]
    exact ⟨natToString (generate_id b), hmem,
      parseU64_natToString _ hlt⟩
  exact absurd (lt_generate_id hin) (Nat.lt_irrefl _)

theorem validate_ids_single {b : Bucket} {id : Nat} {it : StorageItem}
    (hid : id < 2 ^ 64) (h : bucketGet b (natToString id) = some it) :
    validate_ids [id] (get_ids b) = .ok [id] := by
  have hmem := mem_get_ids hid h
  have hfind : List.find? (fun i => !(get_ids b).contains i) [id] = none := by
    simp [List.find?, hmem]
  rw [validate_ids]
  rw [if_neg (by simp)]
  rw [show remove_duplicates [] [id] = [id] from by
    rw [remove_duplicates]
    simp [remove_duplicates]]
  show (match List.find? (fun i => !(get_ids b).contains i) [id] with
    | some i => (Except.error (TaskbookError.invalidId i) :
        Except TaskbookError (List Nat))
    | none => Except.ok [id]) = Except.ok [id]
  rw [hfind]

/-! ## Claims -/

/-- Claim C1, counterexample: the round-trip `decrypt_item` of
`encrypt_item` does not return every item unchanged. A task whose stored
board name is `"@x"` (a well-typed value, produced by legacy data) comes
back with the board normalized to `"x"`, so the result differs from the
input although decryption succeeds. -/
theorem claim_C1_counterexample :
    decrypt_item cKey (encrypt_item cKey cNonce (.task cBadBoardsTask)) =
      .ok (.task { cBadBoardsTask with boards := ["x"] }) ∧
    decrypt_item cKey (encrypt_item cKey cNonce (.task cBadBoardsTask)) ≠
      .ok (.task cBadBoardsTask) := by
  constructor
  · rfl
  · decide

/-- Claim C1 (amended): for every 32-byte key, every drawn 12-byte nonce
and every well-formed item (kind flag matching the variant, numeric fields
within their Rust types, board names already canonical),
`decrypt_item` of `encrypt_item` returns the item unchanged; `decrypt_item`
fails with `InvalidNonce` whenever the stored nonce length is not 12 and
with `DecryptionFailed` whenever the ciphertext is not a genuine encryption
under the supplied key and stored nonce (idealized AEAD authentication);
and every successful decryption certifies key, nonce and a parsed
plaintext — never a silent fallback. -/
theorem claim_C1 (key nonce : List Nat) (item : StorageItem)
    (e : EncryptedItem) (hn : nonce.length = 12)
    (hwf : WellFormedItem item) :
    decrypt_item key (encrypt_item key nonce item) = .ok item ∧
    (e.nonce.length ≠ 12 →
      decrypt_item key e = .error (.invalidNonce 12 e.nonce.length)) ∧
    (e.nonce.length = 12 → (e.data.key ≠ key ∨ e.data.nonce ≠ e.nonce) →
      decrypt_item key e = .error .decryptionFailed) ∧
    (∀ it2, decrypt_item key e = .ok it2 → e.nonce.length = 12 ∧
      e.data.key = key ∧ e.data.nonce = e.nonce ∧
      storageItemFromJson e.data.plaintext = .ok it2) := by
  refine ⟨?_, ?_, ?_, ?_⟩
  · rw [decrypt_item, encrypt_item]
    rw [if_neg (by simp [hn])]
    rw [if_pos ⟨rfl, rfl⟩]
    rw [storageItemFromJson_roundtrip item hwf]
  · intro hlen
    rw [decrypt_item, if_pos hlen]
  · intro hlen hdiff
    rw [decrypt_item, if_neg (by simp [hlen])]
    rw [if_neg (by
      intro hh
      rcases hdiff with hd | hd
      · exact hd hh.1
      · exact hd hh.2)]
  · intro it2 hok
    rw [decrypt_item] at hok
    by_cases hlen : e.nonce.length ≠ 12
    · rw [if_pos hlen] at hok
      exact absurd hok except_error_ne_ok
    · rw [if_neg hlen] at hok
      push_neg at hlen
      by_cases hgen : e.data.key = key ∧ e.data.nonce = e.nonce
      · rw [if_pos hgen] at hok
        refine ⟨hlen, hgen.1, hgen.2, ?_⟩
        rcases hparse : storageItemFromJson e.data.plaintext with msg | it3
        · rw [hparse] at hok
          exact absurd hok except_error_ne_ok
        · rw [hparse] at hok
          cases hok
          rfl
      · rw [if_neg hgen] at hok
        exact absurd hok except_error_ne_ok

/-- Claim C1, witness of the amended theorem at concrete inputs. -/
theorem claim_C1_witness :
    decrypt_item cKey (encrypt_item cKey cNonce (.task cGoodTask)) =
      .ok (.task cGoodTask) :=
  (claim_C1 cKey cNonce (.task cGoodTask) cShortNonceItem (by decide)
    (by decide)).1

/-- Claim C2, counterexample: the local write/read round-trip does not
return every map unchanged. Writing a bucket whose task carries the legacy
board name `"@x"` and reading it back yields the board normalized to
`"x"`. -/
theorem claim_C2_counterexample :
    localGet (localSet ⟨none, none⟩ cBadBucket) =
      .ok [("1", .task { cBadBoardsTask with boards := ["x"] })] ∧
    localGet (localSet ⟨none, none⟩ cBadBucket) ≠ .ok cBadBucket := by
  constructor
  · rfl
  · decide

/-- Claim C2 (amended): on the local backend, writing a map of well-formed
items (kind flags matching variants, numeric fields within their Rust
types, board names canonical) and reading the same bucket back returns
exactly that map, for the active and the archive bucket alike; and reading
a bucket whose backing JSON file is absent returns the empty map without
failing. -/
theorem claim_C2 (st : LocalStorageState) (m : Bucket)
    (hm : ∀ p ∈ m, WellFormedItem p.2) :
    localGet (localSet st m) = .ok m ∧
    localGetArchive (localSetArchive st m) = .ok m ∧
    (st.storage_file = none → localGet st = .ok []) ∧
    (st.archive_file = none → localGetArchive st = .ok []) := by
  refine ⟨?_, ?_, ?_, ?_⟩
  · rw [localGet, localSet]
    rw [show ({ st with storage_file := write_json_file m }
      : LocalStorageState).storage_file = write_json_file m from rfl]
    rw [write_json_file, read_json_file]
    exact bucketFromJson_bucketToJson m hm
  · rw [localGetArchive, localSetArchive]
    rw [show ({ st with archive_file := write_json_file m }
      : LocalStorageState).archive_file = write_json_file m from rfl]
    rw [write_json_file, read_json_file]
    exact bucketFromJson_bucketToJson m hm
  · intro habs
    rw [localGet, habs]
    rfl
  · intro habs
    rw [localGetArchive, habs]
    rfl

/-- Claim C2, witness of the amended theorem at concrete inputs. -/
theorem claim_C2_witness :
    localGet (localSet ⟨none, none⟩ [("1", .task cGoodTask)]) =
      .ok [("1", .task cGoodTask)] :=
  (claim_C2 ⟨none, none⟩ [("1", .task cGoodTask)] (by decide)).1

/-- Claim C3: starting from any store in which no task is simultaneously
complete and in progress, any sequence of task-service operations (create,
check, begin, star, priority, edit, move, delete, restore, clear — the CLI
and silent variants alike) preserves that invariant in both buckets; in
particular the check mutation always leaves `in_progress` false while
inverting `is_complete`, and the begin mutation always leaves `is_complete`
false while inverting `in_progress`. -/
theorem claim_C3 (ops : List Op) (s : StoreState) (hs : StateOk POk s) :
    StateOk POk (runOps ops s) ∧
    (∀ t : Task, checkTransform (.task t) =
      .task { t with in_progress := false, is_complete := !t.is_complete })
      ∧
    (∀ t : Task, beginTransform (.task t) =
      .task { t with is_complete := false, in_progress := !t.in_progress })
      :=
  ⟨runOps_POk ops s hs, fun _ => rfl, fun _ => rfl⟩

/-- Claim C3, witness: the invariant holds after a concrete operation
sequence on a concrete store. -/
theorem claim_C3_witness :
    StateOk POk (runOps [Op.check [1], Op.begin [2], Op.deleteOp [1]]
      cState2) :=
  (claim_C3 [Op.check [1], Op.begin [2], Op.deleteOp [1]] cState2
    (by decide)).1

/-- Claim C4: deleting an existing id moves its item to the archive under a
fresh id. `delete_items [id]` removes the key from the active bucket and
inserts the item into the archive keyed by `generate_id archive` — one more
than the largest numeric archive key, hence 1 on an archive without
numeric keys and strictly above every existing numeric key, and absent
from the archive's key set — with the item's own id field overwritten by
that fresh id and every other field (description, flags, boards, tags)
unchanged. -/
theorem claim_C4 (s : StoreState) (id : Nat) (it : StorageItem)
    (hid : id < 2 ^ 64) (hgen : generate_id s.archive < 2 ^ 64)
    (hnd : (s.active.map Prod.fst).Nodup)
    (hget : bucketGet s.active (natToString id) = some it) :
    delete_items [id] s = .ok
      ⟨(bucketRemove s.active (natToString id)).2,
        bucketInsert s.archive (natToString (generate_id s.archive))
          (it.setId (generate_id s.archive))⟩ ∧
    bucketGet (bucketRemove s.active (natToString id)).2
      (natToString id) = none ∧
    bucketGet (bucketInsert s.archive (natToString (generate_id s.archive))
        (it.setId (generate_id s.archive)))
      (natToString (generate_id s.archive)) =
      some (it.setId (generate_id s.archive)) ∧
    natToString (generate_id s.archive) ∉ s.archive.map Prod.fst ∧
    (get_ids s.archive = [] → generate_id s.archive = 1) ∧
    (∀ k ∈ get_ids s.archive, k < generate_id s.archive) ∧
    (it.setId (generate_id s.archive)).description = it.description ∧
    (it.setId (generate_id s.archive)).is_starred = it.is_starred ∧
    (it.setId (generate_id s.archive)).boards = it.boards ∧
    (it.setId (generate_id s.archive)).tags = it.tags ∧
    (it.setId (generate_id s.archive)).idOf = generate_id s.archive ∧
    (∀ t, it = .task t → it.setId (generate_id s.archive) =
      .task { t with id := generate_id s.archive }) ∧
    (∀ n, it = .note n → it.setId (generate_id s.archive) =
      .note { n with id := generate_id s.archive }) := by
  have hval := validate_ids_single hid hget
  have hfold : deleteFold [id] s.active s.archive =
      ((bucketRemove s.active (natToString id)).2,
        save_item_to_archive s.archive it) := by
    rw [deleteFold]
    rw [show (bucketRemove s.active (natToString id)).1 =
      bucketGet s.active (natToString id) from bucketRemove_fst _ _, hget]
    rfl
  refine ⟨?_, bucketGet_remove_none hnd, bucketGet_insert_self _ _ _,
    generate_id_fresh hgen, fun h => generate_id_empty h,
    fun k hk => lt_generate_id hk, ?_, ?_, ?_, ?_, ?_, ?_, ?_⟩
  · rw [delete_items, hval, except_bind_ok, hfold]
    rfl
  · cases it <;> rfl
  · cases it <;> rfl
  · cases it <;> rfl
  · cases it <;> rfl
  · cases it <;> rfl
  · intro t ht; rw [ht]; rfl
  · intro n hn; rw [hn]; rfl

/-- Claim C4, witness at a concrete two-task store. -/
theorem claim_C4_witness :
    delete_items [1] cState2 = .ok
      ⟨(bucketRemove cState2.active (natToString 1)).2,
        bucketInsert cState2.archive
          (natToString (generate_id cState2.archive))
          ((StorageItem.task cGoodTask).setId
            (generate_id cState2.archive))⟩ :=
  (claim_C4 cState2 1 (.task cGoodTask) (by decide) (by decide) (by decide)
    (by decide)).1

/-- Claim C5, counterexample: board normalization does not lowercase.
`normalize_board_name "@CODING"` is `"CODING"`, not `"coding"`. -/
theorem claim_C5_counterexample :
    normalize_board_name "@CODING" = "CODING" ∧
    normalize_board_name "@CODING" ≠ "coding" := by
  constructor
  · rfl
  · decide

/-- Claim C5 (amended): normalization strips a leading `@` and trims
whitespace but preserves letter case, so `"@CODING"` and `" coding "`
normalize to `"CODING"` and `"coding"` — equal under the
ASCII-case-insensitive `board_eq`, not as strings — and every ASCII-case
spelling of the default alias (`myboard` or `my board`, with or without a
leading `@`) maps to `"My Board"`. -/
theorem claim_C5 (w : String)
    (hw : eqIgnoreAsciiCase w "myboard" = true ∨
      eqIgnoreAsciiCase w "my board" = true) :
    normalize_board_name "@CODING" = "CODING" ∧
    normalize_board_name " coding " = "coding" ∧
    board_eq (normalize_board_name "@CODING")
      (normalize_board_name " coding ") = true ∧
    normalize_board_name w = DEFAULT_BOARD ∧
    normalize_board_name ("@" ++ w) = DEFAULT_BOARD := by
  have halias := normalize_board_alias w hw
  exact ⟨by decide, by decide, by decide, halias.1, halias.2⟩

/-- Claim C5, witness: one concrete alias spelling. -/
theorem claim_C5_witness :
    normalize_board_name "MYBOARD" = DEFAULT_BOARD :=
  (claim_C5 "MYBOARD" (Or.inl (by decide))).2.2.2.1

/-- Claim C6, counterexample: `move_boards_silent` accepts an empty
caller-supplied board list and stores it — the operation succeeds and the
item is left with no boards, violating the claimed invariant. -/
theorem claim_C6_counterexample :
    move_boards_silent 1 [] cState1 =
      .ok ⟨[("1", .task { cGoodTask with boards := [] })], []⟩ ∧
    ¬ PBoards (.task { cGoodTask with boards := [] }) := by
  constructor
  · rfl
  · decide

/-- Claim C6 (amended): every item's board list stays non-empty across any
operation sequence provided the board lists supplied to the unchecked
operations (`create_task_direct`, `create_note_direct`,
`move_boards_silent`) are non-empty — `move_boards_silent` itself stores
the caller's list unconditionally — and the CLI `move_boards` rejects an
input carrying no board words. -/
theorem claim_C6 (ops : List Op) (s : StoreState)
    (hsafe : ∀ op ∈ ops, OpBoardsSafe op) (hs : StateOk PBoards s) :
    StateOk PBoards (runOps ops s) ∧
    (∀ (target : String) (s1 : StoreState), startsWithAt target = true →
      ∃ e, move_boards [target] s1 = .error e) := by
  refine ⟨runOps_PBoards ops s hsafe hs, ?_⟩
  intro target s1 htgt
  rcases hres : move_boards [target] s1 with e | s2
  · exact ⟨e, rfl⟩
  · exfalso
    rw [move_boards] at hres
    split at hres
    · exact except_error_ne_ok hres
    case _ target1 heq =>
      split at hres
      · exact except_error_ne_ok hres
      case _ id hid =>
        rcases hv : validate_ids [id] (get_ids s1.active) with e | v
        · rw [hv] at hres
          rw [show ((Except.error e : Except TaskbookError (List Nat)) >>=
            fun validated => _) = (Except.error e : Except TaskbookError
            StoreState) from rfl] at hres
          exact except_error_ne_ok hres
        · rw [hv, except_bind_ok] at hres
          dsimp only at hres
          split at hres
          · exact except_error_ne_ok hres
          case _ hpos =>
            simp [List.filter_cons, htgt] at heq
            subst heq
            simp [List.foldl] at hpos
    · exact except_error_ne_ok hres

/-- Claim C6, witness: preservation on a concrete safe sequence. -/
theorem claim_C6_witness :
    StateOk PBoards (runOps [Op.moveSilent 1 ["coding"], Op.check [1]]
      cState1) :=
  (claim_C6 [Op.moveSilent 1 ["coding"], Op.check [1]] cState1 (by decide)
    (by decide)).1

/-- Claim C7, counterexample: `update_priority_silent` stores any priority
value unvalidated — setting priority 7 succeeds and the stored task's
priority is 7, outside 1..3. -/
theorem claim_C7_counterexample :
    update_priority_silent 1 7 cState1 =
      .ok ⟨[("1", .task { cGoodTask with priority := 7 })], []⟩ ∧
    ¬(7 = 1 ∨ 7 = 2 ∨ 7 = 3) := by
  constructor
  · rfl
  · decide

/-- Claim C7 (amended): the CLI `update_priority` rejects any input without
a literal 1, 2 or 3 token before touching the store, and any successful
CLI update writes a priority drawn from a literal 1, 2 or 3 token, so the
updated task's priority is in 1..3; `update_priority_silent` itself
performs no range check (its TUI caller validates before calling). -/
theorem claim_C7 (input : List String) (s : StoreState) :
    ((∀ w ∈ input, w ≠ "1" ∧ w ≠ "2" ∧ w ≠ "3") →
      update_priority input s = .error (.invalidId 0)) ∧
    (∀ s2, update_priority input s = .ok s2 →
      ∃ level id, (level = 1 ∨ level = 2 ∨ level = 3) ∧
        s2 = { s with active := (bucketModify s.active (natToString id)
          (fun it => match it with
            | .task t => .task { t with priority := level }
            | .note n => .note n)) }) := by
  constructor
  · intro hnone
    rw [update_priority]
    rw [show input.find? (fun x => x = "1" || x = "2" || x = "3") = none
      from by
        rw [List.find?_eq_none]
        intro w hw
        obtain ⟨w1, w2, w3⟩ := hnone w hw
        simp [w1, w2, w3]]
  · intro s2 hok
    rw [update_priority] at hok
    rcases hfind : input.find? (fun x => x = "1" || x = "2" || x = "3")
      with _ | lvl
    · rw [hfind] at hok
      exact absurd hok except_error_ne_ok
    · rw [hfind] at hok
      have hcases : lvl = "1" ∨ lvl = "2" ∨ lvl = "3" := by
        have h := List.find?_some hfind
        simp at h
        tauto
      dsimp only at hok
      split at hok
      · exact absurd hok except_error_ne_ok
      · split at hok
        · exact absurd hok except_error_ne_ok
        · obtain ⟨v, hv, hok2⟩ := except_bind_eq_ok hok
          cases hok2
          refine ⟨(parseU64 lvl).getD 0, v.headI, ?_, rfl⟩
          rcases hcases with hl | hl | hl
          · subst hl; exact Or.inl (by decide)
          · subst hl; exact Or.inr (Or.inl (by decide))
          · subst hl; exact Or.inr (Or.inr (by decide))
      · exact absurd hok except_error_ne_ok

/-- Claim C7, witness: a concrete out-of-range request is rejected. -/
theorem claim_C7_witness :
    update_priority ["@1", "7"] cState1 = .error (.invalidId 0) :=
  (claim_C7 ["@1", "7"] cState1).1 (by decide)

/-! ### Claim C8: registration validation -/

/-- Claim C8, counterexample: the username character check in the source is
`char::is_alphanumeric`, which accepts the whole Unicode alphanumeric
range, not only `A-Za-z0-9_-`: the username "é" contains a character
outside that ASCII class, yet registration succeeds and inserts a row. -/
theorem claim_C8_counterexample :
    (∃ c ∈ "é".data, ¬ (('A' ≤ c ∧ c ≤ 'Z') ∨ ('a' ≤ c ∧ c ≤ 'z') ∨
      ('0' ≤ c ∧ c ≤ '9') ∨ c = '_' ∨ c = '-')) ∧
    register latin1IsAlphanumeric true [] ⟨"é", "a@b.c", "password1"⟩ =
      .ok [⟨"é", "a@b.c"⟩] := by
  refine ⟨⟨'é', by decide, by decide⟩, ?_⟩
  rfl

/-- Claim C8 (amended): registration rejects the request with a validation
error mapped to HTTP 400 and leaves the user table unchanged whenever the
username, email or password is empty, the username exceeds 64 bytes or
contains a character the standard library's `is_alphanumeric` rejects that
is not `_` or `-`, the email exceeds 255 bytes or lacks `@` or `.`, or the
password byte length is below 8 or above 1024 (the username class is
Unicode-alphanumeric, not `[A-Za-z0-9_-]`, and lengths are bytes). -/
theorem claim_C8 (isAlnum : Char → Bool) (users : List UserRow)
    (req : RegisterRequest)
    (hbad : req.username.isEmpty = true ∨ req.password.isEmpty = true ∨
      req.email.isEmpty = true ∨ utf8Len req.username > 64 ∨
      (∃ c ∈ req.username.data,
        (isAlnum c || c = '_' || c = '-') = false) ∨
      utf8Len req.email > 255 ∨ req.email.data.contains '@' = false ∨
      req.email.data.contains '.' = false ∨ utf8Len req.password < 8 ∨
      utf8Len req.password > 1024) :
    ∃ msg, validate_registration isAlnum req = .error (.validation msg) ∧
      register isAlnum true users req = .error (.validation msg) ∧
      statusOf (.validation msg) = 400 := by
  have hmain : ∃ msg,
      validate_registration isAlnum req = .error (.validation msg) := by
    rw [validate_registration]
    split
    · exact ⟨_, rfl⟩
    case _ h1 =>
      split
      · exact ⟨_, rfl⟩
      case _ h2 =>
        split
        · exact ⟨_, rfl⟩
        case _ h3 =>
          split
          · exact ⟨_, rfl⟩
          case _ h4 =>
            split
            · exact ⟨_, rfl⟩
            case _ h5 =>
              split
              · exact ⟨_, rfl⟩
              case _ h6 =>
                split
                · exact ⟨_, rfl⟩
                case _ h7 =>
                  exfalso
                  simp at h1 h3 h5
                  rcases hbad with h | h | h | h | h | h | h | h | h | h
                  · exact absurd h (by simp [h1.1.1])
                  · exact absurd h (by simp [h1.1.2])
                  · exact absurd h (by simp [h1.2])
                  · exact absurd h h2
                  · obtain ⟨c, hc, hcf⟩ := h
                    have := h3 c hc
                    simp at hcf
                    tauto
                  · exact absurd h h4
                  · simp at h
                    exact h h5.1
                  · simp at h
                    exact h h5.2
                  · exact absurd h h6
                  · exact absurd h h7
  obtain ⟨msg, hv⟩ := hmain
  refine ⟨msg, hv, ?_, rfl⟩
  rw [register]
  rw [if_neg (by decide : ¬ ((!true) = true))]
  rw [hv]
  rfl

/-- Claim C8, witness: a concrete 5-byte password is rejected with 400 and
no row is written. -/
theorem claim_C8_witness :
    ∃ msg, validate_registration latin1IsAlphanumeric
        ⟨"u", "a@b.c", "short"⟩ = .error (.validation msg) ∧
      register latin1IsAlphanumeric true [] ⟨"u", "a@b.c", "short"⟩ =
        .error (.validation msg) ∧
      statusOf (.validation msg) = 400 :=
  claim_C8 latin1IsAlphanumeric [] ⟨"u", "a@b.c", "short"⟩ (by decide)

/-- Claim C9: the source checks the base64-encoded nonce length against 24
characters instead of requiring the decoded nonce to be exactly 12 bytes
(its own comment says 12 bytes is 16 base64 characters): `replace_items`
accepts an item whose nonce decodes to 3 bytes and commits it, so after a
successful replacement a stored nonce need not be 12 bytes. -/
theorem claim_C9 :
    base64Decode "AQID" = some [1, 2, 3] ∧
    ¬ ([1, 2, 3] : List Nat).length = 12 ∧
    replace_items [("k", ⟨"", "AQID"⟩)] = .ok [("k", [], [1, 2, 3])] ∧
    replace_items_txn [("k", ⟨"", "AQID"⟩)] [] = [("k", [], [1, 2, 3])] :=
  ⟨rfl, by decide, rfl, rfl⟩

/-- Claim C10, counterexample: a complete legacy task payload that lacks
only the `_isTask` discriminator is dispatched to the `Task` parser, but
that parser requires the `_isTask` field, so deserialization fails instead
of producing a `Task`. -/
theorem claim_C10_counterexample :
    cLegacyJson.get "_isTask" = none ∧
    ∃ e, storageItemFromJson cLegacyJson = .error e := by
  exact ⟨rfl, ⟨_, rfl⟩⟩

/-- Claim C10 (amended): when the `_isTask` field is absent the dispatcher
defaults the discriminator to `true` and parses the payload as a `Task`,
but the `Task` parser itself requires `_isTask`, so every such payload
fails to deserialize (it neither becomes a `Task` nor a `Note`). -/
theorem claim_C10 (fields : List (String × Json))
    (hnone : findField fields "_isTask" = none) :
    storageItemFromJson (.obj fields) =
      (taskFromJson (.obj fields)).map StorageItem.task ∧
    (∀ t, taskFromJson (.obj fields) ≠ .ok t) ∧
    ∃ e, storageItemFromJson (.obj fields) = .error e := by
  have hdisp : storageItemFromJson (.obj fields) =
      (taskFromJson (.obj fields)).map StorageItem.task := by
    rw [storageItemFromJson]
    rw [show Json.get (.obj fields) "_isTask" = none from hnone]
    rfl
  have htask : ∀ t, taskFromJson (.obj fields) ≠ .ok t := by
    intro t hok
    obtain ⟨id, h1, hok⟩ := except_bind_eq_ok hok
    obtain ⟨date, h2, hok⟩ := except_bind_eq_ok hok
    obtain ⟨ts, h3, hok⟩ := except_bind_eq_ok hok
    obtain ⟨flag, h4, hok⟩ := except_bind_eq_ok hok
    obtain ⟨v, h5, h6⟩ := except_bind_eq_ok h4
    rw [reqField, hnone] at h5
    exact except_error_ne_ok h5
  refine ⟨hdisp, htask, ?_⟩
  rcases hres : taskFromJson (.obj fields) with e | t
  · exact ⟨e, by rw [hdisp, hres]; rfl⟩
  · exact absurd hres (htask t)

/-- Claim C10, witness: a minimal flagless payload is dispatched to the
task parser and fails. -/
theorem claim_C10_witness :
    storageItemFromJson (.obj [("description", Json.str "x")]) =
        (taskFromJson (.obj [("description", Json.str "x")])).map
          StorageItem.task ∧
      (∀ t, taskFromJson (.obj [("description", Json.str "x")]) ≠ .ok t) ∧
      ∃ e, storageItemFromJson (.obj [("description", Json.str "x")]) =
        .error e :=
  claim_C10 [("description", Json.str "x")] rfl

end Taskbook
